import Mathlib

/-!
Verification of the season/tournament data-aggregation pipeline of
`water_follow` (`src/build.py`).  Each Python function relevant to the
claims is embedded as a Lean definition; file-system and HTTP access are
modelled as explicit oracle parameters (`cache`, `age`, `fetch`).
-/

namespace WaterFollow

/-! ### Data model (§3 of the spec, shapes produced in `src/build.py`) -/

/-- One club team as attached by discovery (`{id, name, avatar}`). -/
structure OurTeam where
  id : String
  name : String
  avatar : String
deriving DecidableEq

/-- One standings row as produced by `get_standings`. -/
structure StandingRow where
  id : String
  name : String
  position : ℕ
  points : ℤ
  played : ℤ
  won : ℤ
  drawn : ℤ
  lost : ℤ
  goals_for : ℤ
  goals_against : ℤ
  goal_diff : ℤ
deriving DecidableEq

/-- One result record attached to a match by `get_round_matches`. -/
structure MatchResult where
  value : Option ℤ
  score : Option ℤ
  team_id : String
  match_id : String
deriving DecidableEq

/-- One match record as produced by `get_round_matches` and decorated in
`collect_tournament_data` (round/group display fields).  `date` is the raw
date string from the API; `none` models JSON `null`. -/
structure MatchRec where
  id : String
  date : Option String
  finished : Bool
  canceled : Bool
  postponed : Bool
  rest : Bool
  home_team : Option String
  away_team : Option String
  venue : String
  results : List MatchResult
  round_name : String
  round_order : ℕ
  group_id : String
  group_name : String
deriving DecidableEq

/-- One roster entry as produced by `get_team_roster`. -/
structure RosterEntry where
  first_name : String
  last_name : String
  birthdate : Option String
  role : String
deriving DecidableEq

/-- In-memory group record inside a category: `our_team_ids` is a Python
`set`, modelled as a `Finset`. -/
structure GroupRec where
  id : String
  name : String
  standings : List StandingRow
  our_team_ids : Finset String
deriving DecidableEq

/-- Serialized (JSON) form of a group: the set field flattened to a list. -/
structure SerGroupRec where
  id : String
  name : String
  standings : List StandingRow
  our_team_ids : List String
deriving DecidableEq

/-- In-memory category record as returned by `collect_tournament_data`. -/
structure Category where
  tournament_id : String
  tournament_name : String
  our_teams : List OurTeam
  our_team_ids : Finset String
  «matches» : List MatchRec
  team_names : List (String × String)
  rosters : List (String × List RosterEntry)
  groups : List GroupRec
deriving DecidableEq

/-- Serialized (JSON) form of a category (`_serialize_category` output). -/
structure SerCategory where
  tournament_id : String
  tournament_name : String
  our_teams : List OurTeam
  our_team_ids : List String
  «matches» : List MatchRec
  team_names : List (String × String)
  rosters : List (String × List RosterEntry)
  groups : List SerGroupRec
deriving DecidableEq

/-! ### `_serialize_category` / `_deserialize_category` (build.py 61-88)

Python's `list(s)` enumerates a set in an unspecified order; the order is
modelled by an explicit enumeration function `enum` which the round-trip
theorem only assumes to be content-faithful (`(enum s).toFinset = s`). -/

/-- Embedding of `_serialize_category`: sets become lists (via `enum`),
all other fields are passed through; groups keep `id`, `name`,
`standings` and a listed `our_team_ids`. -/
def serialize_category (enum : Finset String → List String) (cat : Category) :
    SerCategory :=
  { tournament_id := cat.tournament_id
    tournament_name := cat.tournament_name
    our_teams := cat.our_teams
    our_team_ids := enum cat.our_team_ids
    «matches» := cat.«matches»
    team_names := cat.team_names
    rosters := cat.rosters
    groups := cat.groups.map fun g =>
      { id := g.id, name := g.name, standings := g.standings
        our_team_ids := enum g.our_team_ids } }

/-- Embedding of `_deserialize_category`: list fields are reconstituted
into sets (`set(...)` = `List.toFinset`). -/
def deserialize_category (c : SerCategory) : Category :=
  { tournament_id := c.tournament_id
    tournament_name := c.tournament_name
    our_teams := c.our_teams
    our_team_ids := c.our_team_ids.toFinset
    «matches» := c.«matches»
    team_names := c.team_names
    rosters := c.rosters
    groups := c.groups.map fun g =>
      { id := g.id, name := g.name, standings := g.standings
        our_team_ids := g.our_team_ids.toFinset } }

theorem groups_roundtrip (enum : Finset String → List String)
    (henum : ∀ s : Finset String, (enum s).toFinset = s) :
    ∀ gs : List GroupRec,
      (gs.map fun g =>
        ({ id := g.id, name := g.name, standings := g.standings
           our_team_ids := (enum g.our_team_ids).toFinset } : GroupRec)) = gs
  | [] => rfl
  | g :: t => by
    cases g
    simp [groups_roundtrip enum henum t, henum]

/-- **C1**: deserializing the serialized form of a category yields the same
set contents for the category-level `our_team_ids` and for each group's
`our_team_ids` (indeed the whole record), for any enumeration order the
serializer may pick for the sets. -/
theorem deserialize_serialize_category (cat : Category)
    (enum : Finset String → List String)
    (henum : ∀ s : Finset String, (enum s).toFinset = s) :
    deserialize_category (serialize_category enum cat) = cat := by
  cases cat with
  | mk tid tname ots otids ms tns rs gs =>
    simp only [serialize_category, deserialize_category, List.map_map,
      Function.comp, henum]
    exact congrArg _ (groups_roundtrip enum henum gs)

/-- Concrete category used as the round-trip witness (mirrors the mock
category in `test_build.py`). -/
def sampleCategory : Category :=
  { tournament_id := "123"
    tournament_name := "TEST TOURNAMENT"
    our_teams := [⟨"456", "TEST TEAM", ""⟩]
    our_team_ids := {"456", "457"}
    «matches» := []
    team_names := [("456", "TEST TEAM")]
    rosters := []
    groups := [{ id := "g1", name := "Grup A", standings := []
                 our_team_ids := {"456", "457"} }] }

/-- A concrete content-faithful enumeration of a string set. -/
def sortedEnum : Finset String → List String := fun s => s.sort (· ≤ ·)

theorem deserialize_serialize_category_witness :
    (∀ s : Finset String, (sortedEnum s).toFinset = s) ∧
    deserialize_category (serialize_category sortedEnum sampleCategory) =
      sampleCategory := by
  have h : ∀ s : Finset String, (sortedEnum s).toFinset = s := fun s =>
    Finset.sort_toFinset _ s
  exact ⟨h, deserialize_serialize_category sampleCategory sortedEnum h⟩

/-! ### `infer_season_info` (build.py 192-217)

The function reads `cat["matches"][*]["date"]` and keeps the dates that
`datetime.strptime(d, "%Y-%m-%d %H:%M:%S")` parses.  A parsed timestamp is
modelled by `DateTimeRec`; a match whose date is missing, null or
unparseable contributes `none`. -/

/-- A parsed `datetime` value. -/
structure DateTimeRec where
  year : ℕ
  month : ℕ
  day : ℕ
  hour : ℕ
  minute : ℕ
  second : ℕ
deriving DecidableEq

/-- Python `datetime` comparison: lexicographic on the six components. -/
def dt_lt (a b : DateTimeRec) : Bool :=
  if a.year ≠ b.year then decide (a.year < b.year)
  else if a.month ≠ b.month then decide (a.month < b.month)
  else if a.day ≠ b.day then decide (a.day < b.day)
  else if a.hour ≠ b.hour then decide (a.hour < b.hour)
  else if a.minute ≠ b.minute then decide (a.minute < b.minute)
  else decide (a.second < b.second)

/-- Python `min(all_dates)`: the first minimal element (replacement only on
a strictly smaller item). -/
def earliest_date : List DateTimeRec → Option DateTimeRec
  | [] => none
  | d :: ds => some (ds.foldl (fun a b => if dt_lt b a then b else a) d)

/-- The part of a category record that `infer_season_info` reads:
the tournament display name and each match's (parsed) date. -/
structure CatDates where
  tournament_name : String
  match_dates : List (Option DateTimeRec)
deriving DecidableEq

/-- The `all_dates` accumulation loop of `infer_season_info`. -/
def all_dates (cats : List CatDates) : List DateTimeRec :=
  cats.flatMap fun c => c.match_dates.filterMap id

/-- Python `f"{n:02d}"` for the two-digit season suffix. -/
def pad2 (n : ℕ) : String :=
  if n < 10 then "0" ++ toString n else toString n

/-- The label format `f"{y}-{(y + 1) % 100:02d}"`. -/
def season_label (y : ℕ) : String :=
  toString y ++ "-" ++ pad2 ((y + 1) % 100)

/-- The year-pattern search (regex: a four-digit group, then a slash or a
hyphen, then two to four digits) restricted to what the code uses: the
first position where four digits are followed by a slash or a hyphen and
at least two more digits; returns the value of the four-digit group. -/
def find_year_pattern : List Char → Option ℕ
  | a :: b :: c :: d :: s :: e :: f :: rest =>
    if a.isDigit && b.isDigit && c.isDigit && d.isDigit &&
        (s == '/' || s == '-') && e.isDigit && f.isDigit then
      some ((a.toNat - 48) * 1000 + (b.toNat - 48) * 100 +
        (c.toNat - 48) * 10 + (d.toNat - 48))
    else
      find_year_pattern (b :: c :: d :: s :: e :: f :: rest)
  | _ => none

/-- The name-pattern fallback loop of `infer_season_info`: first category
whose `tournament_name` contains the year pattern wins. -/
def first_name_year : List CatDates → Option ℕ
  | [] => none
  | c :: t =>
    match find_year_pattern c.tournament_name.toList with
    | some y => some y
    | none => first_name_year t

/-- Embedding of `infer_season_info`.  `now_year` models
`datetime.now().year`. -/
def infer_season_info (cats : List CatDates) (now_year : ℕ) : String × ℕ :=
  match earliest_date (all_dates cats) with
  | some e =>
    let start_year := if 7 ≤ e.month then e.year else e.year - 1
    (season_label start_year, start_year)
  | none =>
    match first_name_year cats with
    | some y => (season_label y, y)
    | none => (season_label now_year, now_year)

theorem foldl_pick_mem (xs : List DateTimeRec) (a : DateTimeRec) :
    xs.foldl (fun x y => if dt_lt y x then y else x) a = a ∨
      xs.foldl (fun x y => if dt_lt y x then y else x) a ∈ xs := by
  induction xs generalizing a with
  | nil => exact Or.inl rfl
  | cons b t ih =>
    simp only [List.foldl_cons]
    rcases ih (if dt_lt b a then b else a) with h | h
    · rw [h]
      by_cases hb : dt_lt b a
      · simp [hb]
      · simp [hb]
    · exact Or.inr (List.mem_cons_of_mem _ h)

theorem earliest_date_mem {l : List DateTimeRec} {d : DateTimeRec}
    (h : earliest_date l = some d) : d ∈ l := by
  cases l with
  | nil => simp [earliest_date] at h
  | cons x xs =>
    simp only [earliest_date, Option.some.injEq] at h
    rcases foldl_pick_mem xs x with h' | h'
    · rw [h] at h'
      exact h' ▸ List.mem_cons_self _ _
    · rw [h] at h'
      exact List.mem_cons_of_mem _ h'

/-- **C2**: `infer_season_info` follows the three-tier fallback: with at
least one parseable match date the result is driven by the earliest date
with the July cutoff (June-only data for year `Y` gives `(Y-1)-(Y%100)`,
September-only data gives `Y-((Y+1)%100)`); with no dated match but a
tournament name containing a year pattern such as `2023/24` the label is
`2023-24`; otherwise the current calendar year is used. -/
theorem infer_season_info_spec (Y now_year : ℕ) (hY : 1 ≤ Y) :
    (∀ cats e, earliest_date (all_dates cats) = some e →
        infer_season_info cats now_year =
          (season_label (if 7 ≤ e.month then e.year else e.year - 1),
            if 7 ≤ e.month then e.year else e.year - 1)) ∧
    (∀ cats, all_dates cats ≠ [] →
        (∀ d ∈ all_dates cats, d.year = Y ∧ d.month = 6) →
        infer_season_info cats now_year =
          (toString (Y - 1) ++ "-" ++ pad2 (Y % 100), Y - 1)) ∧
    (∀ cats, all_dates cats ≠ [] →
        (∀ d ∈ all_dates cats, d.year = Y ∧ d.month = 9) →
        infer_season_info cats now_year =
          (toString Y ++ "-" ++ pad2 ((Y + 1) % 100), Y)) ∧
    (∀ cats y, all_dates cats = [] → first_name_year cats = some y →
        infer_season_info cats now_year = (season_label y, y)) ∧
    (infer_season_info [⟨"LLIGA CATALANA CADET 2023/24", []⟩] now_year =
      ("2023-24", 2023)) ∧
    (∀ cats, all_dates cats = [] → first_name_year cats = none →
        infer_season_info cats now_year = (season_label now_year, now_year)) := by
  have hsome : ∀ (l : List DateTimeRec), l ≠ [] → ∃ e, earliest_date l = some e := by
    intro l hl
    cases l with
    | nil => exact absurd rfl hl
    | cons x xs => exact ⟨_, rfl⟩
  refine ⟨?_, ?_, ?_, ?_, ?_, ?_⟩
  · intro cats e he
    simp [infer_season_info, he]
  · intro cats hne hall
    obtain ⟨e, he⟩ := hsome _ hne
    obtain ⟨hyr, hmo⟩ := hall e (earliest_date_mem he)
    have h7 : ¬ (7 ≤ e.month) := by omega
    simp only [infer_season_info, he, h7, if_false, hyr]
    have : Y - 1 + 1 = Y := by omega
    simp [season_label, this]
  · intro cats hne hall
    obtain ⟨e, he⟩ := hsome _ hne
    obtain ⟨hyr, hmo⟩ := hall e (earliest_date_mem he)
    have h7 : 7 ≤ e.month := by omega
    simp [infer_season_info, he, h7, hyr, season_label]
  · intro cats y hempty hname
    have : earliest_date (all_dates cats) = none := by rw [hempty]; rfl
    simp [infer_season_info, this, hname]
  · rfl
  · intro cats hempty hname
    have : earliest_date (all_dates cats) = none := by rw [hempty]; rfl
    simp [infer_season_info, this, hname]

/-- Witness for C2 at concrete inputs: a single category whose only match
is dated 2026-06-15 yields season `2025-26`, start year `2025`. -/
theorem infer_season_info_spec_witness :
    (1 ≤ 2026) ∧
    all_dates [⟨"COPA", [some ⟨2026, 6, 15, 18, 0, 0⟩]⟩] ≠ [] ∧
    (∀ d ∈ all_dates [⟨"COPA", [some ⟨2026, 6, 15, 18, 0, 0⟩]⟩],
      d.year = 2026 ∧ d.month = 6) ∧
    infer_season_info [⟨"COPA", [some ⟨2026, 6, 15, 18, 0, 0⟩]⟩] 2030 =
      ("2025-26", 2025) := by
  refine ⟨by omega, by decide, by decide, ?_⟩
  have h := (infer_season_info_spec 2026 2030 (by omega)).2.1
    [⟨"COPA", [some ⟨2026, 6, 15, 18, 0, 0⟩]⟩] (by decide) (by decide)
  simpa using h


/-! ### String comparison

Python compares strings lexicographically by code point.  The library
order on `String` is not kernel-reducible, so the same order is defined
here directly on the character lists. -/

/-- Lexicographic strict comparison of character lists (code-point order,
as Python compares strings). -/
def chars_lt : List Char → List Char → Bool
  | [], [] => false
  | [], _ :: _ => true
  | _ :: _, [] => false
  | a :: as, b :: bs =>
    if a < b then true else if b < a then false else chars_lt as bs

/-- Python `a < b` on strings. -/
def str_lt (a b : String) : Bool := chars_lt a.data b.data

/-- Python `a <= b` on strings (total order: the negation of `b < a`). -/
def str_le (a b : String) : Bool := !(str_lt b a)

theorem chars_lt_nil_right : ∀ l : List Char, chars_lt l [] = false
  | [] => rfl
  | _ :: _ => rfl

theorem chars_lt_irrefl : ∀ l : List Char, chars_lt l l = false
  | [] => rfl
  | a :: as => by simp [chars_lt, chars_lt_irrefl as]

theorem chars_lt_cons_iff (x y : Char) (xs ys : List Char) :
    chars_lt (x :: xs) (y :: ys) = true ↔
      (x < y ∨ (x = y ∧ chars_lt xs ys = true)) := by
  by_cases h1 : x < y
  · simp [chars_lt, h1]
  · by_cases h2 : y < x
    · have hne : x ≠ y := fun he => absurd (he ▸ h2) (lt_irrefl _)
      simp [chars_lt, h1, h2, hne]
    · have he : x = y := le_antisymm (not_lt.mp h2) (not_lt.mp h1)
      simp [chars_lt, h1, h2, he]

theorem chars_lt_trans : ∀ (a b c : List Char),
    chars_lt a b = true → chars_lt b c = true → chars_lt a c = true
  | _, _, [], _, hbc => absurd hbc (by simp [chars_lt_nil_right])
  | [], _, _ :: _, _, _ => rfl
  | _ :: _, [], _, hab, _ => absurd hab (by simp [chars_lt_nil_right])
  | x :: xs, y :: ys, z :: zs, hab, hbc => by
    rcases (chars_lt_cons_iff x y xs ys).mp hab with h | ⟨he, hr⟩
    · rcases (chars_lt_cons_iff y z ys zs).mp hbc with h2 | ⟨he2, hr2⟩
      · exact (chars_lt_cons_iff x z xs zs).mpr (Or.inl (lt_trans h h2))
      · exact (chars_lt_cons_iff x z xs zs).mpr (Or.inl (he2 ▸ h))
    · rcases (chars_lt_cons_iff y z ys zs).mp hbc with h2 | ⟨he2, hr2⟩
      · exact (chars_lt_cons_iff x z xs zs).mpr (Or.inl (he ▸ h2))
      · exact (chars_lt_cons_iff x z xs zs).mpr
          (Or.inr ⟨he.trans he2, chars_lt_trans xs ys zs hr hr2⟩)

theorem chars_lt_asymm : ∀ (a b : List Char),
    chars_lt a b = true → chars_lt b a = false
  | [], [], h => by simp [chars_lt] at h
  | [], _ :: _, _ => chars_lt_nil_right _
  | _ :: _, [], h => absurd h (by simp [chars_lt_nil_right])
  | x :: xs, y :: ys, h => by
    rcases (chars_lt_cons_iff x y xs ys).mp h with h1 | ⟨he, hr⟩
    · by_contra hb
      rcases (chars_lt_cons_iff y x ys xs).mp (by simpa using hb) with
        h2 | ⟨he2, _⟩
      · exact absurd (lt_trans h1 h2) (lt_irrefl _)
      · exact absurd (he2 ▸ h1) (lt_irrefl _)
    · by_contra hb
      rcases (chars_lt_cons_iff y x ys xs).mp (by simpa using hb) with
        h2 | ⟨he2, hr2⟩
      · exact absurd (he ▸ h2) (lt_irrefl _)
      · exact absurd (chars_lt_trans _ _ _ hr hr2)
          (by simp [chars_lt_irrefl])

theorem chars_eq_of_not_lt : ∀ (a b : List Char),
    chars_lt a b = false → chars_lt b a = false → a = b
  | [], [], _, _ => rfl
  | [], _ :: _, h, _ => by simp [chars_lt] at h
  | _ :: _, [], _, h => by simp [chars_lt] at h
  | x :: xs, y :: ys, h1, h2 => by
    by_cases hxy : x < y
    · exact absurd ((chars_lt_cons_iff x y xs ys).mpr (Or.inl hxy))
        (by simp [h1])
    · by_cases hyx : y < x
      · exact absurd ((chars_lt_cons_iff y x ys xs).mpr (Or.inl hyx))
          (by simp [h2])
      · have he : x = y := le_antisymm (not_lt.mp hyx) (not_lt.mp hxy)
        have hrx : chars_lt xs ys = false := by
          by_contra hc
          exact absurd ((chars_lt_cons_iff x y xs ys).mpr
            (Or.inr ⟨he, by simpa using hc⟩)) (by simp [h1])
        have hry : chars_lt ys xs = false := by
          by_contra hc
          exact absurd ((chars_lt_cons_iff y x ys xs).mpr
            (Or.inr ⟨he.symm, by simpa using hc⟩)) (by simp [h2])
        rw [he, chars_eq_of_not_lt xs ys hrx hry]

theorem str_le_refl (a : String) : str_le a a = true := by
  simp [str_le, str_lt, chars_lt_irrefl]

theorem str_le_total (a b : String) : str_le a b = true ∨ str_le b a = true := by
  by_cases h : chars_lt b.data a.data = true
  · right
    simp [str_le, str_lt, chars_lt_asymm _ _ h]
  · left
    simp only [str_le, str_lt, Bool.not_eq_true'] at h ⊢
    simpa using h

theorem str_le_trans (a b c : String) (h1 : str_le a b = true)
    (h2 : str_le b c = true) : str_le a c = true := by
  simp only [str_le, str_lt, Bool.not_eq_true'] at h1 h2 ⊢
  by_contra hc
  have hca : chars_lt c.data a.data = true := by simpa using hc
  by_cases hab : chars_lt a.data b.data = true
  · exact absurd (chars_lt_trans _ _ _ hca hab) (by simp [h2])
  · have he : a.data = b.data :=
      chars_eq_of_not_lt _ _ (by simpa using hab) h1
    rw [← he] at h2
    exact absurd hca (by simp [h2])

theorem str_eq_of_le_le (a b : String) (h1 : str_le a b = true)
    (h2 : str_le b a = true) : a = b := by
  simp only [str_le, str_lt, Bool.not_eq_true'] at h1 h2
  have h := chars_eq_of_not_lt a.data b.data h2 h1
  cases a
  cases b
  exact congrArg String.mk h

/-! ### Match ordering (build.py 540)

`all_matches.sort(key=lambda m: m["date"] or "9999")` — Python's sort is a
stable sort by key, which determines its output uniquely; it is embedded
as a stable insertion sort over the same key. -/

/-- The sort key `m["date"] or "9999"` (a null or empty date string is
falsy in Python and becomes the sentinel). -/
def match_sort_key (m : MatchRec) : String :=
  match m.date with
  | none => "9999"
  | some d => if d = "" then "9999" else d

/-- Comparison by sort key. -/
def match_le (a b : MatchRec) : Prop :=
  str_le (match_sort_key a) (match_sort_key b) = true

instance : DecidableRel match_le := fun _ _ =>
  inferInstanceAs (Decidable (_ = true))

instance : IsTotal MatchRec match_le := ⟨fun _ _ => str_le_total _ _⟩

instance : IsTrans MatchRec match_le :=
  ⟨fun _ _ _ hab hbc => str_le_trans _ _ _ hab hbc⟩

/-- Embedding of the match sort in `collect_tournament_data`. -/
def sort_matches (l : List MatchRec) : List MatchRec :=
  List.insertionSort match_le l

/-- A match with no usable date string (`null` or `""`). -/
def null_dated (m : MatchRec) : Prop := m.date = none ∨ m.date = some ""

instance : DecidablePred null_dated := fun m =>
  inferInstanceAs (Decidable (m.date = none ∨ m.date = some ""))

/-- Every real date string produced by the API compares below the
sentinel `"9999"` (its year is at most 9998). -/
def date_below_sentinel (m : MatchRec) : Bool :=
  match m.date with
  | none => true
  | some d => d == "" || str_lt d "9999"

theorem filter_orderedInsert {α : Type} (p : α → Bool) (r : α → α → Prop)
    [DecidableRel r] (h1 : ∀ x y, p x = true → p y = true → r x y)
    (a : α) (l : List α) :
    (List.orderedInsert r a l).filter p =
      if p a then a :: l.filter p else l.filter p := by
  induction l with
  | nil =>
    by_cases hpa : p a <;> simp [List.orderedInsert, hpa]
  | cons b t ih =>
    by_cases hr : r a b
    · by_cases hpa : p a <;>
        simp [List.orderedInsert, hr, hpa, List.filter_cons]
    · by_cases hpa : p a
      · have hpb : p b = false := by
          by_contra hb
          exact hr (h1 a b hpa (by simpa using hb))
        simp [List.orderedInsert, hr, List.filter_cons, hpb, ih, hpa]
      · by_cases hpb : p b <;>
          simp [List.orderedInsert, hr, List.filter_cons, hpb, ih, hpa]

theorem filter_insertionSort {α : Type} (p : α → Bool) (r : α → α → Prop)
    [DecidableRel r] (h1 : ∀ x y, p x = true → p y = true → r x y) :
    ∀ l : List α, (List.insertionSort r l).filter p = l.filter p
  | [] => rfl
  | a :: t => by
    simp only [List.insertionSort]
    rw [filter_orderedInsert p r h1 a _, filter_insertionSort p r h1 t]
    by_cases hpa : p a <;> simp [hpa, List.filter_cons]

theorem null_dated_key (m : MatchRec) (h : null_dated m) :
    match_sort_key m = "9999" := by
  rcases h with h | h <;> simp [match_sort_key, h]

theorem sentinel_le_null (m : MatchRec) (hbs : date_below_sentinel m = true)
    (h1 : str_le "9999" (match_sort_key m) = true) : null_dated m := by
  cases hd : m.date with
  | none => exact Or.inl hd
  | some d =>
    by_cases hde : d = ""
    · exact Or.inr (hde ▸ hd)
    · exfalso
      have hk : match_sort_key m = d := by simp [match_sort_key, hd, hde]
      rw [hk] at h1
      simp only [date_below_sentinel, hd, Bool.or_eq_true, beq_iff_eq] at hbs
      rcases hbs with h | h
      · exact hde h
      · simp only [str_le, Bool.not_eq_true'] at h1
        rw [h1] at h
        exact Bool.false_ne_true h

/-- **C5**: the aggregated match list is sorted by date ascending; every
null-dated match sorts after every concretely dated match, and the
relative order among the null-dated matches is their insertion order. -/
theorem sort_matches_spec (l : List MatchRec)
    (hdates : ∀ m ∈ l, date_below_sentinel m = true) :
    List.Perm (sort_matches l) l ∧
    List.Pairwise match_le (sort_matches l) ∧
    (∀ i j : Fin (sort_matches l).length, i < j →
      null_dated ((sort_matches l).get i) →
      null_dated ((sort_matches l).get j)) ∧
    (sort_matches l).filter (fun m => decide (null_dated m)) =
      l.filter (fun m => decide (null_dated m)) := by
  have hperm : List.Perm (sort_matches l) l := List.perm_insertionSort match_le l
  have hsorted : List.Pairwise match_le (sort_matches l) :=
    List.sorted_insertionSort match_le l
  refine ⟨hperm, hsorted, ?_, ?_⟩
  · intro i j hij hnull
    have hle : match_le ((sort_matches l).get i) ((sort_matches l).get j) :=
      List.pairwise_iff_get.mp hsorted i j hij
    have hki : match_sort_key ((sort_matches l).get i) = "9999" :=
      null_dated_key _ hnull
    have hmem : (sort_matches l).get j ∈ l :=
      hperm.mem_iff.mp (List.get_mem _ _ _)
    refine sentinel_le_null _ (hdates _ hmem) ?_
    rw [← hki]
    exact hle
  · refine filter_insertionSort _ _ ?_ l
    intro x y hx hy
    have hx' : null_dated x := by simpa using hx
    have hy' : null_dated y := by simpa using hy
    show str_le (match_sort_key x) (match_sort_key y) = true
    rw [null_dated_key x hx', null_dated_key y hy']
    exact str_le_refl _

/-- A minimal match record for concrete inputs. -/
def mkMatch (i : String) (d : Option String) : MatchRec :=
  ⟨i, d, false, false, false, false, none, none, "", [], "", 0, "", ""⟩

/-- Concrete input list for the C5 witness. -/
def sampleMatches : List MatchRec :=
  [mkMatch "1" (some "2024-10-15 18:00:00"), mkMatch "2" none,
   mkMatch "3" (some "2023-01-01 10:00:00"), mkMatch "4" none]

theorem sort_matches_spec_witness :
    (∀ m ∈ sampleMatches, date_below_sentinel m = true) ∧
    (List.Perm (sort_matches sampleMatches) sampleMatches ∧
      List.Pairwise match_le (sort_matches sampleMatches) ∧
      (∀ i j : Fin (sort_matches sampleMatches).length, i < j →
        null_dated ((sort_matches sampleMatches).get i) →
        null_dated ((sort_matches sampleMatches).get j)) ∧
      (sort_matches sampleMatches).filter (fun m => decide (null_dated m)) =
        sampleMatches.filter (fun m => decide (null_dated m))) :=
  ⟨by decide, sort_matches_spec sampleMatches (by decide)⟩


/-! ### Roster caches (build.py 148-186 and 542-592)

File access is modelled by oracles: `cache t` is the content of
`_data/seasons/rosters/r_{t}.json` (`none` = file absent), `age t` is
`roster_cache_age_days(t)` (same file, so `none` exactly when the file is
absent), and `fetch t` is `get_team_roster(t)` (`Except.error` = the
request raised). -/

/-- Python dict assignment `d[k] = v` on a team-id keyed dict. -/
def upd_roster (d : String → Option (List RosterEntry)) (k : String)
    (v : List RosterEntry) : String → Option (List RosterEntry) :=
  fun t => if t = k then some v else d t

/-- Python `set.add`. -/
def set_insert (l : List String) (t : String) : List String :=
  if t ∈ l then l else l ++ [t]

/-- Embedding of `load_all_roster_caches`: returns the dict of rosters
found and the set of missing ids. -/
def load_all_roster_caches (team_ids : List String)
    (cache : String → Option (List RosterEntry)) :
    (String → Option (List RosterEntry)) × List String :=
  team_ids.foldl
    (fun (p : (String → Option (List RosterEntry)) × List String) t_id =>
      match cache t_id with
      | some r => (upd_roster p.1 t_id r, p.2)
      | none => (p.1, set_insert p.2 t_id))
    ((fun _ => none), [])

theorem load_all_roster_caches_fold (cache : String → Option (List RosterEntry)) :
    ∀ (ids : List String) (d0 : String → Option (List RosterEntry))
      (m0 : List String) (t : String),
      ((ids.foldl
        (fun (p : (String → Option (List RosterEntry)) × List String) t_id =>
          match cache t_id with
          | some r => (upd_roster p.1 t_id r, p.2)
          | none => (p.1, set_insert p.2 t_id))
        (d0, m0)).1 t =
          if t ∈ ids ∧ (cache t).isSome then cache t else d0 t) ∧
      (t ∈ (ids.foldl
        (fun (p : (String → Option (List RosterEntry)) × List String) t_id =>
          match cache t_id with
          | some r => (upd_roster p.1 t_id r, p.2)
          | none => (p.1, set_insert p.2 t_id))
        (d0, m0)).2 ↔ t ∈ m0 ∨ (t ∈ ids ∧ cache t = none))
  | [], d0, m0, t => by simp
  | x :: xs, d0, m0, t => by
    cases hx : cache x with
    | some r =>
      have ih := load_all_roster_caches_fold cache xs (upd_roster d0 x r) m0 t
      simp only [List.foldl_cons, hx]
      refine ⟨?_, ?_⟩
      · rw [ih.1]
        by_cases ht : t = x
        · subst ht
          by_cases hm : t ∈ xs <;>
            simp [hm, upd_roster, hx]
        · by_cases hm : t ∈ xs <;> simp [ht, hm, upd_roster]
      · rw [ih.2]
        by_cases ht : t = x
        · subst ht
          simp [hx]
        · simp [ht]
    | none =>
      have ih := load_all_roster_caches_fold cache xs d0 (set_insert m0 x) t
      simp only [List.foldl_cons, hx]
      refine ⟨?_, ?_⟩
      · rw [ih.1]
        by_cases ht : t = x
        · subst ht
          by_cases hm : t ∈ xs <;> simp [hm, hx]
        · by_cases hm : t ∈ xs <;> simp [ht, hm]
      · rw [ih.2]
        by_cases ht : t = x
        · subst ht
          by_cases hm : t ∈ m0 <;> simp [set_insert, hx, hm]
        · by_cases hxm : x ∈ m0 <;> by_cases hm : t ∈ m0 <;>
            simp [set_insert, ht, hxm, hm]

theorem load_all_roster_caches_fst (ids : List String)
    (cache : String → Option (List RosterEntry)) (t : String) :
    (load_all_roster_caches ids cache).1 t =
      if t ∈ ids ∧ (cache t).isSome then cache t else none :=
  (load_all_roster_caches_fold cache ids (fun _ => none) [] t).1

theorem load_all_roster_caches_snd (ids : List String)
    (cache : String → Option (List RosterEntry)) (t : String) :
    t ∈ (load_all_roster_caches ids cache).2 ↔ t ∈ ids ∧ cache t = none := by
  have h := (load_all_roster_caches_fold cache ids (fun _ => none) [] t).2
  simpa using h

/-- **C9**: `load_all_roster_caches` partitions its input: every input id
is either a key of the roster dict (cache file present) or in the missing
set (cache file absent), never both and never neither, and the roster dict
holds no key outside the input. -/
theorem load_all_roster_caches_partition (ids : List String)
    (cache : String → Option (List RosterEntry)) (t : String) :
    (((load_all_roster_caches ids cache).1 t).isSome ↔
      t ∈ ids ∧ (cache t).isSome) ∧
    (t ∈ (load_all_roster_caches ids cache).2 ↔ t ∈ ids ∧ cache t = none) ∧
    (((load_all_roster_caches ids cache).1 t).isSome ∨
        t ∈ (load_all_roster_caches ids cache).2 ↔ t ∈ ids) ∧
    ¬(((load_all_roster_caches ids cache).1 t).isSome ∧
        t ∈ (load_all_roster_caches ids cache).2) := by
  have h1 := load_all_roster_caches_fst ids cache t
  have h2 := load_all_roster_caches_snd ids cache t
  refine ⟨?_, h2, ?_, ?_⟩
  · rw [h1]
    by_cases hm : t ∈ ids ∧ (cache t).isSome <;> simp [hm]
  · rw [h1, h2]
    by_cases hm : t ∈ ids
    · cases hc : cache t <;> simp [hm, hc]
    · simp [hm]
  · rw [h1, h2]
    rintro ⟨hs, hmem, hnone⟩
    simp [hnone] at hs

/-- The current-season auto-refresh set of `collect_tournament_data`
(562-568): our teams whose roster cache is absent or older than 30 days. -/
def our_to_fetch (our_ids : List String) (age : String → Option ℚ) :
    List String :=
  our_ids.filter fun t =>
    match age t with
    | none => true
    | some a => decide (30 < a)

/-- Roster handling of `collect_tournament_data` in `--refresh-rosters`
mode (548-557): every team in the standings is fetched; a fetch error
yields an empty roster. -/
def rosters_refresh_mode (all_ids : List String)
    (fetch : String → Except String (List RosterEntry)) :
    String → Option (List RosterEntry) :=
  all_ids.foldl
    (fun d t => upd_roster d t
      (match fetch t with
       | .ok r => r
       | .error _ => []))
    (fun _ => none)

/-- Roster handling of `collect_tournament_data` in normal mode (558-591):
cached rosters are loaded; for a current season our stale/missing teams
are re-fetched (a fetch error falls back to `cached.get(t_id, [])`);
remaining missing teams get an empty roster. -/
def rosters_normal_mode (all_ids our_ids : List String)
    (cache : String → Option (List RosterEntry)) (age : String → Option ℚ)
    (fetch : String → Except String (List RosterEntry))
    (is_current_season : Bool) : String → Option (List RosterEntry) :=
  let cached := (load_all_roster_caches all_ids cache).1
  let missing := (load_all_roster_caches all_ids cache).2
  let d1 :=
    if is_current_season then
      (our_to_fetch our_ids age).foldl
        (fun d t => upd_roster d t
          (match fetch t with
           | .ok r => r
           | .error _ => (cached t).getD []))
        cached
    else cached
  missing.foldl (fun d t => if (d t).isNone then upd_roster d t [] else d) d1

theorem foldl_upd_lookup (g : String → List RosterEntry) :
    ∀ (ids : List String) (d0 : String → Option (List RosterEntry))
      (t : String),
      (ids.foldl (fun d x => upd_roster d x (g x)) d0) t =
        if t ∈ ids then some (g t) else d0 t
  | [], d0, t => by simp
  | x :: xs, d0, t => by
    simp only [List.foldl_cons]
    rw [foldl_upd_lookup g xs (upd_roster d0 x (g x)) t]
    by_cases hx : t = x
    · subst hx
      by_cases hm : t ∈ xs <;> simp [hm, upd_roster]
    · by_cases hm : t ∈ xs <;> simp [hx, hm, upd_roster]

theorem foldl_fill_missing :
    ∀ (ids : List String) (d0 : String → Option (List RosterEntry))
      (t : String),
      (ids.foldl (fun d x => if (d x).isNone then upd_roster d x [] else d)
        d0) t =
        if t ∈ ids ∧ d0 t = none then some [] else d0 t
  | [], d0, t => by simp
  | x :: xs, d0, t => by
    simp only [List.foldl_cons]
    rw [foldl_fill_missing xs _ t]
    by_cases hx : t = x
    · subst hx
      by_cases h0 : d0 t = none
      · simp [h0, upd_roster]
      · simp [h0, Option.isNone_iff_eq_none, upd_roster]
    · have hdt : (if (d0 x).isNone then upd_roster d0 x [] else d0) t = d0 t := by
        by_cases h0 : (d0 x).isNone <;> simp [h0, upd_roster, hx]
      rw [hdt]
      simp [hx]


/-- **C7**: in normal current-season collection, a club-owned team is in
the auto-refresh set exactly when its roster cache file is absent
(`age t = none`) or strictly older than 30 days; a 31-day-old cache is
refreshed, a 29-day-old one is not. -/
theorem our_to_fetch_spec :
    (∀ (our_ids : List String) (age : String → Option ℚ) (t : String),
      t ∈ our_to_fetch our_ids age ↔
        t ∈ our_ids ∧ (age t = none ∨ ∃ a, age t = some a ∧ 30 < a)) ∧
    ("A" ∈ our_to_fetch ["A"] fun _ => some 31) ∧
    ("A" ∉ our_to_fetch ["A"] fun _ => some 29) ∧
    ("A" ∈ our_to_fetch ["A"] fun _ => none) := by
  refine ⟨?_, by decide, by decide, by decide⟩
  intro our_ids age t
  simp only [our_to_fetch, List.mem_filter]
  cases ha : age t <;> simp [ha]

/-- **C3** (amended): a roster fetch error never aborts collection; in
`--refresh-rosters` mode the failing team's roster becomes empty, while in
the current-season auto-refresh the failing team's roster falls back to
the cached roster loaded for it — which is empty exactly when no cache
file existed. -/
theorem roster_fetch_error_handling :
    (∀ (all_ids : List String) (fetch : String → Except String (List RosterEntry))
        (t : String) (e : String), t ∈ all_ids → fetch t = Except.error e →
      rosters_refresh_mode all_ids fetch t = some []) ∧
    (∀ (all_ids our_ids : List String)
        (cache : String → Option (List RosterEntry)) (age : String → Option ℚ)
        (fetch : String → Except String (List RosterEntry)) (t : String)
        (e : String),
      t ∈ our_to_fetch our_ids age → fetch t = Except.error e →
      rosters_normal_mode all_ids our_ids cache age fetch true t =
        some (((load_all_roster_caches all_ids cache).1 t).getD [])) ∧
    (∀ (all_ids : List String) (cache : String → Option (List RosterEntry))
        (t : String), cache t = none →
      ((load_all_roster_caches all_ids cache).1 t).getD [] = []) := by
  refine ⟨?_, ?_, ?_⟩
  · intro all_ids fetch t e hmem herr
    unfold rosters_refresh_mode
    rw [foldl_upd_lookup (fun x =>
      match fetch x with
      | .ok r => r
      | .error _ => []) all_ids _ t]
    simp [hmem, herr]
  · intro all_ids our_ids cache age fetch t e hmem herr
    unfold rosters_normal_mode
    simp only [if_true]
    rw [foldl_fill_missing]
    rw [foldl_upd_lookup (fun x =>
      match fetch x with
      | .ok r => r
      | .error _ => ((load_all_roster_caches all_ids cache).1 x).getD [])
      (our_to_fetch our_ids age) _ t]
    simp [hmem, herr]
  · intro all_ids cache t hnone
    rw [load_all_roster_caches_fst]
    simp [hnone]

/-- Oracles for the concrete C3 scenario: team "7" has a stale (31-day)
cached roster and its re-fetch raises. -/
def cache_anna : String → Option (List RosterEntry) := fun t =>
  if t = "7" then some [⟨"ANNA", "PUIG", none, "player"⟩] else none

def age_31 : String → Option ℚ := fun _ => some 31

def fetch_boom : String → Except String (List RosterEntry) := fun _ =>
  Except.error "boom"

theorem roster_fetch_error_handling_witness :
    ("7" ∈ (["7"] : List String)) ∧
    (fetch_boom "7" = Except.error "boom") ∧
    ("7" ∈ our_to_fetch ["7"] age_31) ∧
    rosters_refresh_mode ["7"] fetch_boom "7" = some [] ∧
    rosters_normal_mode ["7"] ["7"] cache_anna age_31 fetch_boom true "7" =
      some (((load_all_roster_caches ["7"] cache_anna).1 "7").getD []) :=
  ⟨by decide, rfl, by decide,
    roster_fetch_error_handling.1 ["7"] fetch_boom "7" "boom" (by decide) rfl,
    roster_fetch_error_handling.2.1 ["7"] ["7"] cache_anna age_31 fetch_boom
      "7" "boom" (by decide) rfl⟩

/-- Counterexample to C3 as stated: in the current-season auto-refresh a
fetch error for a team with a stale cached roster leaves the cached
roster in place — the team's roster does **not** become empty. -/
theorem roster_fetch_error_keeps_cache :
    "7" ∈ our_to_fetch ["7"] age_31 ∧
    fetch_boom "7" = Except.error "boom" ∧
    rosters_normal_mode ["7"] ["7"] cache_anna age_31 fetch_boom true "7" =
      some [⟨"ANNA", "PUIG", none, "player"⟩] ∧
    rosters_normal_mode ["7"] ["7"] cache_anna age_31 fetch_boom true "7" ≠
      some [] :=
  ⟨by decide, rfl, by decide, by decide⟩


/-! ### `get_team_roster` (build.py 457-483)

The JSON:API `included` array of the team request is modelled by
`IncEntry`; the dict comprehensions `profiles`/`licenses` become
last-wins lookups over that list. -/

/-- Attributes of a `profile` resource. -/
structure ProfileAttrs where
  first_name : Option String
  last_name : Option String
  birthdate : Option String
deriving DecidableEq

/-- A `license` resource: its `attributes.type` and its profile
relationship. -/
structure LicenseRec where
  typ : Option String
  profile_ref : Option String
deriving DecidableEq

/-- One element of the `included` array of the team roster response. -/
inductive IncEntry where
  | profile (id : String) (attrs : ProfileAttrs)
  | license (id : String) (lic : LicenseRec)
  | participant (license_ref : Option String)
  | other
deriving DecidableEq

/-- Python `profiles = {i["id"]: i["attributes"] for i in included if ...}`
(later duplicates override earlier ones). -/
def lookup_profile (included : List IncEntry) (pid : String) :
    Option ProfileAttrs :=
  included.foldl
    (fun acc i =>
      match i with
      | .profile id attrs => if id = pid then some attrs else acc
      | _ => acc) none

/-- Python `licenses = {i["id"]: i for i in included if ...}`. -/
def lookup_license (included : List IncEntry) (lid : String) :
    Option LicenseRec :=
  included.foldl
    (fun acc i =>
      match i with
      | .license id lic => if id = lid then some lic else acc
      | _ => acc) none

/-- Python `lic.get("attributes", {}).get("type", "unknown")`. -/
def license_type_of (included : List IncEntry) (lid : String) : String :=
  match lookup_license included lid with
  | some l => l.typ.getD "unknown"
  | none => "unknown"

/-- Python `profiles.get(profile_ref["id"], {}) if profile_ref else {}`
(a missing license gives `{}`, whose ref is absent). -/
def lookup_profile_of_license (included : List IncEntry) (lid : String) :
    Option ProfileAttrs :=
  match lookup_license included lid with
  | some l =>
    match l.profile_ref with
    | some pid => lookup_profile included pid
    | none => none
  | none => none

/-- The body of the participant loop of `get_team_roster`: skips a
participant without a license relationship, skips one whose profile has a
falsy `first_name`, otherwise builds the roster entry. -/
def roster_of_participant (included : List IncEntry) :
    Option String → Option RosterEntry
  | none => none
  | some lid =>
    match lookup_profile_of_license included lid with
    | none => none
    | some pr =>
      match pr.first_name with
      | none => none
      | some fn =>
        if fn = "" then none
        else some ⟨fn, pr.last_name.getD "", pr.birthdate,
          license_type_of included lid⟩

/-- The unsorted roster accumulated by the participant loop. -/
def raw_roster (included : List IncEntry) : List RosterEntry :=
  included.filterMap fun i =>
    match i with
    | .participant lref => roster_of_participant included lref
    | _ => none

/-- Python `0 if r["role"] == "player" else 1`. -/
def role_rank (r : RosterEntry) : ℕ := if r.role = "player" then 0 else 1

/-- The sort order of `get_team_roster`: lexicographic on the key tuple
`(role rank, last_name, first_name)`. -/
@[reducible] def roster_le (a b : RosterEntry) : Prop :=
  role_rank a < role_rank b ∨
    (role_rank a = role_rank b ∧
      (str_lt a.last_name b.last_name = true ∨
        (a.last_name = b.last_name ∧
          str_le a.first_name b.first_name = true)))

theorem str_lt_trans (a b c : String) (h1 : str_lt a b = true)
    (h2 : str_lt b c = true) : str_lt a c = true :=
  chars_lt_trans _ _ _ h1 h2

theorem str_eq_of_not_lt (a b : String) (h1 : str_lt a b = false)
    (h2 : str_lt b a = false) : a = b :=
  str_eq_of_le_le a b (by simp [str_le, h2]) (by simp [str_le, h1])

instance : IsTotal RosterEntry roster_le := by
  refine ⟨fun a b => ?_⟩
  rcases Nat.lt_trichotomy (role_rank a) (role_rank b) with h | h | h
  · exact Or.inl (Or.inl h)
  · by_cases hl : str_lt a.last_name b.last_name = true
    · exact Or.inl (Or.inr ⟨h, Or.inl hl⟩)
    · by_cases hl2 : str_lt b.last_name a.last_name = true
      · exact Or.inr (Or.inr ⟨h.symm, Or.inl hl2⟩)
      · have he : a.last_name = b.last_name :=
          str_eq_of_not_lt _ _ (by simpa using hl) (by simpa using hl2)
        rcases str_le_total a.first_name b.first_name with hf | hf
        · exact Or.inl (Or.inr ⟨h, Or.inr ⟨he, hf⟩⟩)
        · exact Or.inr (Or.inr ⟨h.symm, Or.inr ⟨he.symm, hf⟩⟩)
  · exact Or.inr (Or.inl h)

instance : IsTrans RosterEntry roster_le := by
  refine ⟨fun a b c h1 h2 => ?_⟩
  rcases h1 with h1 | ⟨he1, h1⟩
  · rcases h2 with h2 | ⟨he2, _⟩
    · exact Or.inl (lt_trans h1 h2)
    · exact Or.inl (he2 ▸ h1)
  · rcases h2 with h2 | ⟨he2, h2⟩
    · exact Or.inl (he1 ▸ h2)
    · refine Or.inr ⟨he1.trans he2, ?_⟩
      rcases h1 with h1 | ⟨hle1, h1⟩
      · rcases h2 with h2 | ⟨hle2, _⟩
        · exact Or.inl (str_lt_trans _ _ _ h1 h2)
        · exact Or.inl (hle2 ▸ h1)
      · rcases h2 with h2 | ⟨hle2, h2⟩
        · exact Or.inl (hle1 ▸ h2)
        · exact Or.inr ⟨hle1.trans hle2, str_le_trans _ _ _ h1 h2⟩

/-- Embedding of `get_team_roster`: the participant loop followed by the
stable sort on `(role rank, last_name, first_name)`. -/
def get_team_roster (included : List IncEntry) : List RosterEntry :=
  List.insertionSort roster_le (raw_roster included)

theorem roster_of_participant_first_name (included : List IncEntry)
    (lref : Option String) (e : RosterEntry)
    (h : roster_of_participant included lref = some e) : e.first_name ≠ "" := by
  unfold roster_of_participant at h
  repeat' split at h
  all_goals simp only [Option.some.injEq, reduceCtorEq] at h
  all_goals subst h
  all_goals simp only [ne_eq]
  all_goals assumption

/-- **C10**: every roster returned by `get_team_roster` has all `player`
entries before all other entries; within each class entries are sorted by
last name then first name; no returned entry lacks a first name. -/
theorem get_team_roster_spec (included : List IncEntry) :
    (∀ i j : Fin (get_team_roster included).length, i < j →
      ((get_team_roster included).get j).role = "player" →
      ((get_team_roster included).get i).role = "player") ∧
    (∀ i j : Fin (get_team_roster included).length, i < j →
      role_rank ((get_team_roster included).get i) =
        role_rank ((get_team_roster included).get j) →
      (str_lt ((get_team_roster included).get i).last_name
          ((get_team_roster included).get j).last_name = true ∨
        (((get_team_roster included).get i).last_name =
            ((get_team_roster included).get j).last_name ∧
          str_le ((get_team_roster included).get i).first_name
            ((get_team_roster included).get j).first_name = true))) ∧
    (∀ e ∈ get_team_roster included, e.first_name ≠ "") := by
  have hsorted : List.Pairwise roster_le (get_team_roster included) :=
    List.sorted_insertionSort roster_le (raw_roster included)
  refine ⟨?_, ?_, ?_⟩
  · intro i j hij hj
    have hle := List.pairwise_iff_get.mp hsorted i j hij
    have hrj : role_rank ((get_team_roster included).get j) = 0 := by
      unfold role_rank
      rw [if_pos hj]
    by_contra hne
    have hri : role_rank ((get_team_roster included).get i) = 1 := by
      unfold role_rank
      rw [if_neg hne]
    rcases hle with h | ⟨he, _⟩
    · omega
    · omega
  · intro i j hij hrank
    have hle := List.pairwise_iff_get.mp hsorted i j hij
    rcases hle with h | ⟨_, h⟩
    · omega
    · exact h
  · intro e he
    have hmem : e ∈ raw_roster included :=
      (List.perm_insertionSort roster_le (raw_roster included)).mem_iff.mp he
    obtain ⟨i, _, hi⟩ := List.mem_filterMap.mp hmem
    cases i with
    | participant lref => exact roster_of_participant_first_name _ _ _ hi
    | profile id attrs => simp at hi
    | license id lic => simp at hi
    | other => simp at hi


/-! ### `discover_club_tournaments` (build.py 336-361)

`api_get(f"tournaments/{id}", include=teams)` is modelled by the oracle
`fetch_teams`; an `Except.error` is a raised request exception (the
tournament is skipped). -/

/-- One tournament record as produced by `discover_seasons`. -/
structure Tournament where
  id : String
  name : String
  gender : Option String
  order : Option ℕ
  season_id : String
  api_status : String
deriving DecidableEq

/-- One element of the `included` array of a tournament request: its type,
team attributes and the club relationship (`none` models a missing or
falsy `club.data`, or one without an id). -/
structure TeamInc where
  typ : String
  id : String
  name : String
  avatar : String
  club_id : Option String
deriving DecidableEq

/-- The team filter of `discover_club_tournaments`: included entries of
type `team` whose club relationship matches `club_id`. -/
def our_teams_of (included : List TeamInc) (club_id : String) : List OurTeam :=
  (included.filter fun i =>
    decide (i.typ = "team" ∧ i.club_id = some club_id)).map
    fun i => ⟨i.id, i.name, i.avatar⟩

/-- The sort key `t.get("order") or 999` (a missing order — and a falsy
order of `0` — becomes the sentinel `999`). -/
def t_sort_key (t : Tournament) : ℕ :=
  match t.order with
  | none => 999
  | some o => if o = 0 then 999 else o

/-- Comparison of result entries by the order key. -/
def club_le (a b : Tournament × List OurTeam) : Prop :=
  t_sort_key a.1 ≤ t_sort_key b.1

instance : DecidableRel club_le := fun _ _ =>
  inferInstanceAs (Decidable (_ ≤ _))

instance : IsTotal (Tournament × List OurTeam) club_le :=
  ⟨fun _ _ => Nat.le_total _ _⟩

instance : IsTrans (Tournament × List OurTeam) club_le :=
  ⟨fun _ _ _ hab hbc => le_trans hab hbc⟩

/-- The per-tournament body of `discover_club_tournaments`: skip on a
request error, skip when the club has no team, otherwise keep the
tournament with its `our_teams` attached. -/
def club_filter_step (club_id : String)
    (fetch_teams : String → Except String (List TeamInc)) (t : Tournament) :
    Option (Tournament × List OurTeam) :=
  match fetch_teams t.id with
  | .error _ => none
  | .ok inc =>
    let ot := our_teams_of inc club_id
    if ot.isEmpty then none else some (t, ot)

/-- Embedding of `discover_club_tournaments`: the filtering loop followed
by the stable sort on the order key. -/
def discover_club_tournaments (ts : List Tournament) (club_id : String)
    (fetch_teams : String → Except String (List TeamInc)) :
    List (Tournament × List OurTeam) :=
  List.insertionSort club_le (ts.filterMap (club_filter_step club_id fetch_teams))

/-- Every explicit `order` attribute is strictly between 0 and 999 (true
of the upstream ordering values; 0 would be falsy and 999 collides with
the sentinel). -/
def order_in_range (t : Tournament) : Bool :=
  match t.order with
  | none => true
  | some o => decide (0 < o) && decide (o < 999)

theorem order_in_range_spec (t : Tournament) (h : order_in_range t = true)
    (o : ℕ) (ho : t.order = some o) : 0 < o ∧ o < 999 := by
  unfold order_in_range at h
  rw [ho] at h
  simpa using h

theorem t_sort_key_some (t : Tournament) (o : ℕ) (ho : t.order = some o)
    (hne : o ≠ 0) : t_sort_key t = o := by
  unfold t_sort_key
  rw [ho]
  simp [hne]

theorem t_sort_key_none (t : Tournament) (ho : t.order = none) :
    t_sort_key t = 999 := by
  unfold t_sort_key
  rw [ho]

theorem club_filter_step_eq_some (club_id : String)
    (fetch_teams : String → Except String (List TeamInc)) (t : Tournament)
    (p : Tournament × List OurTeam) :
    club_filter_step club_id fetch_teams t = some p ↔
      ∃ inc, fetch_teams t.id = Except.ok inc ∧
        our_teams_of inc club_id ≠ [] ∧ p = (t, our_teams_of inc club_id) := by
  unfold club_filter_step
  cases hf : fetch_teams t.id with
  | error e => simp [hf]
  | ok inc =>
    by_cases he : (our_teams_of inc club_id).isEmpty
    · have he' : our_teams_of inc club_id = [] := by
        simpa [List.isEmpty_iff] using he
      simp [he, he']
    · have he' : our_teams_of inc club_id ≠ [] := by
        simpa [List.isEmpty_iff] using he
      simp only [he, if_false, Bool.false_eq_true]
      constructor
      · rintro h
        exact ⟨inc, rfl, he', (Option.some.injEq _ _ ▸ h).symm⟩
      · rintro ⟨inc', hinc', _, rfl⟩
        obtain rfl : inc' = inc := (Except.ok.inj hinc').symm
        rfl

theorem mem_discover_club_tournaments (ts : List Tournament) (club_id : String)
    (fetch_teams : String → Except String (List TeamInc))
    (p : Tournament × List OurTeam) :
    p ∈ discover_club_tournaments ts club_id fetch_teams ↔
      ∃ t ∈ ts, club_filter_step club_id fetch_teams t = some p := by
  unfold discover_club_tournaments
  rw [(List.perm_insertionSort club_le _).mem_iff]
  exact List.mem_filterMap

/-- **C6**: a tournament appears in the output of
`discover_club_tournaments` iff its team lookup succeeded and the club has
at least one team in it (with `our_teams` attached); the output is ordered
by the `order` attribute ascending with orderless tournaments after every
ordered one. -/
theorem discover_club_tournaments_spec (ts : List Tournament)
    (club_id : String) (fetch_teams : String → Except String (List TeamInc))
    (horder : ∀ t ∈ ts, order_in_range t = true) :
    (∀ t ∈ ts,
      ((∃ ot, (t, ot) ∈ discover_club_tournaments ts club_id fetch_teams) ↔
        ∃ inc, fetch_teams t.id = Except.ok inc ∧
          our_teams_of inc club_id ≠ [])) ∧
    (∀ p ∈ discover_club_tournaments ts club_id fetch_teams,
      p.1 ∈ ts ∧ p.2 ≠ [] ∧
        ∃ inc, fetch_teams p.1.id = Except.ok inc ∧
          p.2 = our_teams_of inc club_id) ∧
    (∀ i j : Fin (discover_club_tournaments ts club_id fetch_teams).length,
      i < j →
      (∀ oi oj,
        ((discover_club_tournaments ts club_id fetch_teams).get i).1.order =
          some oi →
        ((discover_club_tournaments ts club_id fetch_teams).get j).1.order =
          some oj → oi ≤ oj) ∧
      (((discover_club_tournaments ts club_id fetch_teams).get i).1.order =
          none →
        ((discover_club_tournaments ts club_id fetch_teams).get j).1.order =
          none)) := by
  have hmem_ts : ∀ p, p ∈ discover_club_tournaments ts club_id fetch_teams →
      p.1 ∈ ts ∧ p.2 ≠ [] ∧
        ∃ inc, fetch_teams p.1.id = Except.ok inc ∧
          p.2 = our_teams_of inc club_id := by
    intro p hp
    obtain ⟨t, hts, hstep⟩ :=
      (mem_discover_club_tournaments ts club_id fetch_teams p).mp hp
    obtain ⟨inc, hinc, hne, rfl⟩ :=
      (club_filter_step_eq_some club_id fetch_teams t p).mp hstep
    exact ⟨hts, hne, inc, hinc, rfl⟩
  have hkey : ∀ p, p ∈ discover_club_tournaments ts club_id fetch_teams →
      ∀ o, p.1.order = some o → t_sort_key p.1 = o ∧ 0 < o ∧ o < 999 := by
    intro p hp o ho
    obtain ⟨hts, -, -⟩ := hmem_ts p hp
    obtain ⟨h0, h999⟩ := order_in_range_spec p.1 (horder p.1 hts) o ho
    exact ⟨t_sort_key_some p.1 o ho (by omega), h0, h999⟩
  refine ⟨?_, hmem_ts, ?_⟩
  · intro t hts
    constructor
    · rintro ⟨ot, hot⟩
      obtain ⟨t', _, hstep⟩ :=
        (mem_discover_club_tournaments ts club_id fetch_teams (t, ot)).mp hot
      obtain ⟨inc, hinc, hne, heq⟩ :=
        (club_filter_step_eq_some club_id fetch_teams t' (t, ot)).mp hstep
      obtain ⟨rfl, -⟩ := Prod.mk.injEq .. ▸ heq
      exact ⟨inc, hinc, hne⟩
    · rintro ⟨inc, hinc, hne⟩
      refine ⟨our_teams_of inc club_id, ?_⟩
      refine (mem_discover_club_tournaments ts club_id fetch_teams _).mpr
        ⟨t, hts, ?_⟩
      exact (club_filter_step_eq_some club_id fetch_teams t _).mpr
        ⟨inc, hinc, hne, rfl⟩
  · intro i j hij
    have hsorted : List.Pairwise club_le
        (discover_club_tournaments ts club_id fetch_teams) := by
      unfold discover_club_tournaments
      exact List.sorted_insertionSort club_le _
    have hle := List.pairwise_iff_get.mp hsorted i j hij
    have hmi : (discover_club_tournaments ts club_id fetch_teams).get i ∈
        discover_club_tournaments ts club_id fetch_teams :=
      List.get_mem (discover_club_tournaments ts club_id fetch_teams) i.1 i.2
    have hmj : (discover_club_tournaments ts club_id fetch_teams).get j ∈
        discover_club_tournaments ts club_id fetch_teams :=
      List.get_mem (discover_club_tournaments ts club_id fetch_teams) j.1 j.2
    constructor
    · intro oi oj hoi hoj
      obtain ⟨hki, -, -⟩ := hkey _ hmi oi hoi
      obtain ⟨hkj, -, -⟩ := hkey _ hmj oj hoj
      have : t_sort_key ((discover_club_tournaments ts club_id
          fetch_teams).get i).1 ≤ t_sort_key ((discover_club_tournaments ts
          club_id fetch_teams).get j).1 := hle
      omega
    · intro hnone
      cases hoj : ((discover_club_tournaments ts club_id
          fetch_teams).get j).1.order with
      | none => rfl
      | some oj =>
        obtain ⟨hkj, -, h999⟩ := hkey _ hmj oj hoj
        have hki := t_sort_key_none _ hnone
        have : t_sort_key ((discover_club_tournaments ts club_id
            fetch_teams).get i).1 ≤ t_sort_key ((discover_club_tournaments ts
            club_id fetch_teams).get j).1 := hle
        omega


/-- Concrete tournaments for the C6 witness. -/
def sample_t1 : Tournament := ⟨"T1", "LLIGA CADET", none, some 2, "S1", "in_progress"⟩

def sample_t2 : Tournament := ⟨"T2", "LLIGA ALEVI", none, none, "S1", "in_progress"⟩

def sample_t3 : Tournament := ⟨"T3", "LLIGA INFANTIL", none, some 1, "S1", "finished"⟩

/-- Concrete team-lookup oracle: `T2` raises; the others return one team
of club `C77` and one of another club. -/
def fetch_demo : String → Except String (List TeamInc) := fun tid =>
  if tid = "T2" then Except.error "timeout"
  else Except.ok [⟨"team", "X" ++ tid, "CN TEST", "", some "C77"⟩,
    ⟨"team", "Y" ++ tid, "CN ALTRE", "", some "C99"⟩]

theorem discover_club_tournaments_spec_witness :
    (∀ t ∈ [sample_t1, sample_t2, sample_t3], order_in_range t = true) ∧
    ((∀ t ∈ [sample_t1, sample_t2, sample_t3],
      ((∃ ot, (t, ot) ∈
          discover_club_tournaments [sample_t1, sample_t2, sample_t3] "C77"
            fetch_demo) ↔
        ∃ inc, fetch_demo t.id = Except.ok inc ∧
          our_teams_of inc "C77" ≠ [])) ∧
    (∀ p ∈ discover_club_tournaments [sample_t1, sample_t2, sample_t3] "C77"
        fetch_demo,
      p.1 ∈ [sample_t1, sample_t2, sample_t3] ∧ p.2 ≠ [] ∧
        ∃ inc, fetch_demo p.1.id = Except.ok inc ∧
          p.2 = our_teams_of inc "C77") ∧
    (∀ i j : Fin (discover_club_tournaments [sample_t1, sample_t2, sample_t3]
        "C77" fetch_demo).length,
      i < j →
      (∀ oi oj,
        ((discover_club_tournaments [sample_t1, sample_t2, sample_t3] "C77"
          fetch_demo).get i).1.order = some oi →
        ((discover_club_tournaments [sample_t1, sample_t2, sample_t3] "C77"
          fetch_demo).get j).1.order = some oj → oi ≤ oj) ∧
      (((discover_club_tournaments [sample_t1, sample_t2, sample_t3] "C77"
          fetch_demo).get i).1.order = none →
        ((discover_club_tournaments [sample_t1, sample_t2, sample_t3] "C77"
          fetch_demo).get j).1.order = none))) :=
  ⟨by decide,
    discover_club_tournaments_spec [sample_t1, sample_t2, sample_t3] "C77"
      fetch_demo (by decide)⟩


/-! ### Current-season merge (build.py 1498-1506)

`seasons_raw` is an insertion-ordered dict `season_id -> info`, modelled
as an association list with distinct keys. -/

/-- One value of the `discover_seasons` result:
`{"tournaments": [...], "has_in_progress": bool}`. -/
structure SeasonRaw where
  tournaments : List Tournament
  has_in_progress : Bool
deriving DecidableEq

/-- Python dict lookup on an association list (first match). -/
def lookupA {β : Type} (l : List (String × β)) (k : String) : Option β :=
  match l with
  | [] => none
  | q :: t => if q.1 = k then some q.2 else lookupA t k

/-- Python `[sid for sid in seasons_raw if has_in_progress]`. -/
def current_sids (l : List (String × SeasonRaw)) : List String :=
  (l.filter fun q => q.2.has_in_progress).map Prod.fst

/-- Python `seasons_raw[sid]["tournaments"]` (empty for an absent key). -/
def season_tournaments (l : List (String × SeasonRaw)) (sid : String) :
    List Tournament :=
  ((lookupA l sid).map SeasonRaw.tournaments).getD []

/-- Python `len(seasons_raw[sid]["tournaments"])`. -/
def tcount (l : List (String × SeasonRaw)) (sid : String) : ℕ :=
  (season_tournaments l sid).length

/-- Python `max(xs, key=f)` starting from `b`: the first maximal element
(replacement only on a strictly larger key). -/
def first_max (f : String → ℕ) (b : String) (xs : List String) : String :=
  xs.foldl (fun best s => if f best < f s then s else best) b

/-- Python `max(current_sids, key=...)` of the merge step. -/
def primary_sid (l : List (String × SeasonRaw)) : String :=
  match current_sids l with
  | [] => ""
  | c :: cs => first_max (tcount l) c cs

/-- The per-entry effect of the merge loop: a non-primary current season
is deleted, the primary receives all their tournaments, everything else
is untouched. -/
def merge_step (cs : List String) (p : String) (extra : List Tournament)
    (q : String × SeasonRaw) : Option (String × SeasonRaw) :=
  if q.1 ∈ cs ∧ q.1 ≠ p then none
  else if q.1 = p then
    some (q.1, { q.2 with tournaments := q.2.tournaments ++ extra })
  else some q

/-- Embedding of the `if len(current_sids) > 1` merge block of `main`:
every non-primary current season id is deleted and its tournaments are
appended (in current-id order) to the primary season's tournaments. -/
def merge_current_seasons (l : List (String × SeasonRaw)) :
    List (String × SeasonRaw) :=
  if (current_sids l).length ≤ 1 then l
  else
    l.filterMap
      (merge_step (current_sids l) (primary_sid l)
        (((current_sids l).filter fun s => s ≠ primary_sid l).flatMap
          (season_tournaments l)))

theorem lookupA_eq_some_of_mem {β : Type} :
    ∀ (l : List (String × β)) (k : String) (v : β),
      (k, v) ∈ l → (l.map Prod.fst).Nodup → lookupA l k = some v
  | [], _, _, hmem, _ => absurd hmem (List.not_mem_nil _)
  | q :: t, k, v, hmem, hnd => by
    have hnd' : q.1 ∉ t.map Prod.fst ∧ (t.map Prod.fst).Nodup := by
      rw [List.map_cons, List.nodup_cons] at hnd
      exact hnd
    rcases List.mem_cons.mp hmem with rfl | hm
    · simp [lookupA]
    · have hk : q.1 ≠ k := by
        intro he
        exact hnd'.1 (he ▸ List.mem_map.mpr ⟨(k, v), hm, rfl⟩)
      simp only [lookupA, hk, if_false]
      exact lookupA_eq_some_of_mem t k v hm hnd'.2

theorem mem_current_sids (l : List (String × SeasonRaw)) (s : String) :
    s ∈ current_sids l ↔ ∃ d, (s, d) ∈ l ∧ d.has_in_progress = true := by
  constructor
  · intro h
    obtain ⟨q, hq, rfl⟩ := List.mem_map.mp h
    obtain ⟨hql, hqc⟩ := List.mem_filter.mp hq
    exact ⟨q.2, hql, by simpa using hqc⟩
  · rintro ⟨d, hd, hc⟩
    exact List.mem_map.mpr
      ⟨(s, d), List.mem_filter.mpr ⟨hd, by simpa using hc⟩, rfl⟩

theorem current_sid_coherence (l : List (String × SeasonRaw))
    (hnd : (l.map Prod.fst).Nodup) (q : String × SeasonRaw) (hq : q ∈ l) :
    q.1 ∈ current_sids l ↔ q.2.has_in_progress = true := by
  constructor
  · intro h
    obtain ⟨d, hd, hc⟩ := (mem_current_sids l q.1).mp h
    have h1 := lookupA_eq_some_of_mem l q.1 d hd hnd
    have h2 := lookupA_eq_some_of_mem l q.1 q.2 hq hnd
    rw [h1] at h2
    exact (Option.some.inj h2) ▸ hc
  · intro h
    exact (mem_current_sids l q.1).mpr ⟨q.2, hq, h⟩

theorem season_tournaments_of_mem (l : List (String × SeasonRaw))
    (hnd : (l.map Prod.fst).Nodup) (q : String × SeasonRaw) (hq : q ∈ l) :
    season_tournaments l q.1 = q.2.tournaments := by
  unfold season_tournaments
  rw [lookupA_eq_some_of_mem l q.1 q.2 hq hnd]
  rfl

theorem current_sids_nodup (l : List (String × SeasonRaw))
    (hnd : (l.map Prod.fst).Nodup) : (current_sids l).Nodup := by
  unfold current_sids
  exact hnd.sublist (List.Sublist.map Prod.fst (List.filter_sublist l))

theorem first_max_split (f : String → ℕ) :
    ∀ (xs : List String) (b : String),
      ∃ l1 l2, b :: xs = l1 ++ first_max f b xs :: l2 ∧
        (∀ x ∈ l1, f x < f (first_max f b xs)) ∧
        (∀ x ∈ l2, f x ≤ f (first_max f b xs))
  | [], b => ⟨[], [], rfl, by simp, by simp⟩
  | x :: xs, b => by
    obtain ⟨l1, l2, heq, h1, h2⟩ :=
      first_max_split f xs (if f b < f x then x else b)
    have hstep : first_max f b (x :: xs) =
        first_max f (if f b < f x then x else b) xs := rfl
    set m := first_max f (if f b < f x then x else b) xs with hm
    rw [hstep]
    by_cases hbx : f b < f x
    · rw [if_pos hbx] at heq
      have hxm : f x ≤ f m := by
        cases l1 with
        | nil =>
          rw [List.nil_append, List.cons.injEq] at heq
          rw [← heq.1]
        | cons a t =>
          simp only [List.cons_append, List.cons.injEq] at heq
          have := h1 a (List.mem_cons_self a t)
          rw [← heq.1] at this
          exact le_of_lt this
      refine ⟨b :: l1, l2, ?_, ?_, h2⟩
      · rw [List.cons_append, ← heq]
      · intro y hy
        rcases List.mem_cons.mp hy with rfl | hy2
        · exact lt_of_lt_of_le hbx hxm
        · exact h1 y hy2
    · rw [if_neg hbx] at heq
      cases l1 with
      | nil =>
        rw [List.nil_append, List.cons.injEq] at heq
        refine ⟨[], x :: xs, ?_, by simp, ?_⟩
        · rw [List.nil_append, ← heq.1]
        · intro y hy
          rcases List.mem_cons.mp hy with rfl | hy2
          · rw [← heq.1]
            exact le_of_not_lt hbx
          · rw [heq.2] at hy2
            exact h2 y hy2
      | cons a t =>
        simp only [List.cons_append, List.cons.injEq] at heq
        refine ⟨b :: x :: t, l2, ?_, ?_, h2⟩
        · simp only [List.cons_append]
          rw [← heq.2]
        · intro y hy
          have hbm : f b < f m := by
            have := h1 a (List.mem_cons_self a t)
            rwa [← heq.1] at this
          rcases List.mem_cons.mp hy with rfl | hy2
          · exact hbm
          · rcases List.mem_cons.mp hy2 with rfl | hy3
            · exact lt_of_le_of_lt (le_of_not_lt hbx) hbm
            · exact h1 y (List.mem_cons_of_mem a hy3)


theorem merge_step_some_key (cs : List String) (p : String)
    (extra : List Tournament) (q r : String × SeasonRaw)
    (h : merge_step cs p extra q = some r) :
    r.1 = q.1 ∧ (q.1 ∉ cs ∨ q.1 = p) := by
  unfold merge_step at h
  by_cases h1 : q.1 ∈ cs ∧ q.1 ≠ p
  · rw [if_pos h1] at h
    exact absurd h (by simp)
  · rw [if_neg h1] at h
    by_cases h2 : q.1 = p
    · rw [if_pos h2] at h
      obtain rfl := Option.some.inj h
      exact ⟨rfl, Or.inr h2⟩
    · rw [if_neg h2] at h
      obtain rfl := Option.some.inj h
      refine ⟨rfl, Or.inl ?_⟩
      intro hin
      exact h1 ⟨hin, h2⟩

theorem lookupA_filterMap_merge (cs : List String) (p : String)
    (extra : List Tournament) :
    ∀ m : List (String × SeasonRaw),
      lookupA (m.filterMap (merge_step cs p extra)) p =
        (lookupA m p).map fun v =>
          { v with tournaments := v.tournaments ++ extra }
  | [] => rfl
  | q :: t => by
    by_cases h2 : q.1 = p
    · have hstep : merge_step cs p extra q =
          some (q.1, { q.2 with tournaments := q.2.tournaments ++ extra }) := by
        unfold merge_step
        rw [if_neg (by simp [h2]), if_pos h2]
      simp only [List.filterMap_cons, hstep]
      simp [lookupA, h2]
    · by_cases h1 : q.1 ∈ cs
      · have hstep : merge_step cs p extra q = none := by
          unfold merge_step
          rw [if_pos ⟨h1, h2⟩]
        simp only [List.filterMap_cons, hstep]
        rw [lookupA_filterMap_merge cs p extra t]
        simp [lookupA, h2]
      · have hstep : merge_step cs p extra q = some q := by
          unfold merge_step
          rw [if_neg (fun hc => h1 hc.1), if_neg h2]
        simp only [List.filterMap_cons, hstep]
        simp only [lookupA, h2, if_false]
        exact lookupA_filterMap_merge cs p extra t

theorem filter_current_filterMap (cs : List String) (p : String)
    (extra : List Tournament) (hp : p ∈ cs) :
    ∀ m : List (String × SeasonRaw),
      (∀ q ∈ m, (q.1 ∈ cs ↔ q.2.has_in_progress = true)) →
      ((m.filterMap (merge_step cs p extra)).filter
        fun q => q.2.has_in_progress).map Prod.fst =
        (m.filter fun q => decide (q.1 = p)).map Prod.fst
  | [], _ => rfl
  | q :: t, hco => by
    have hco_t : ∀ r ∈ t, (r.1 ∈ cs ↔ r.2.has_in_progress = true) :=
      fun r hr => hco r (List.mem_cons_of_mem q hr)
    have hcoq := hco q (List.mem_cons_self q t)
    have ih := filter_current_filterMap cs p extra hp t hco_t
    by_cases h2 : q.1 = p
    · have hqc : q.2.has_in_progress = true := hcoq.mp (h2 ▸ hp)
      have hstep : merge_step cs p extra q =
          some (q.1, { q.2 with tournaments := q.2.tournaments ++ extra }) := by
        unfold merge_step
        rw [if_neg (by simp [h2]), if_pos h2]
      simp only [List.filterMap_cons, hstep, List.filter_cons]
      simp [hqc, h2, ih]
    · by_cases h1 : q.1 ∈ cs
      · have hstep : merge_step cs p extra q = none := by
          unfold merge_step
          rw [if_pos ⟨h1, h2⟩]
        simp only [List.filterMap_cons, hstep, List.filter_cons, h2]
        simpa [h2] using ih
      · have hqc : q.2.has_in_progress = false := by
          cases hb : q.2.has_in_progress with
          | false => rfl
          | true => exact absurd (hcoq.mpr hb) h1
        have hstep : merge_step cs p extra q = some q := by
          unfold merge_step
          rw [if_neg (fun hc => h1 hc.1), if_neg h2]
        simp only [List.filterMap_cons, hstep, List.filter_cons, hqc]
        simpa [h2] using ih

theorem flatMap_tournaments (l : List (String × SeasonRaw))
    (hnd : (l.map Prod.fst).Nodup) :
    ∀ m : List (String × SeasonRaw), (∀ q ∈ m, q ∈ l) →
      (m.map Prod.fst).flatMap (season_tournaments l) =
        m.flatMap fun q => q.2.tournaments
  | [], _ => rfl
  | q :: t, hm => by
    simp only [List.map_cons, List.flatMap_cons]
    rw [season_tournaments_of_mem l hnd q (hm q (List.mem_cons_self q t)),
      flatMap_tournaments l hnd t fun r hr => hm r (List.mem_cons_of_mem q hr)]

theorem filter_key_map_fst {β : Type} :
    ∀ (l : List (String × β)), (l.map Prod.fst).Nodup →
      ∀ k, k ∈ l.map Prod.fst →
      (l.filter fun q => decide (q.1 = k)).map Prod.fst = [k]
  | [], _, _, hk => absurd hk (List.not_mem_nil _)
  | q :: t, hnd, k, hk => by
    have hnd' : q.1 ∉ t.map Prod.fst ∧ (t.map Prod.fst).Nodup := by
      rw [List.map_cons, List.nodup_cons] at hnd
      exact hnd
    by_cases hq : q.1 = k
    · have ht : t.filter (fun r => decide (r.1 = k)) = [] := by
        rw [List.filter_eq_nil_iff]
        intro r hr
        simp only [decide_eq_true_eq]
        intro he
        exact hnd'.1 (hq ▸ he ▸ List.mem_map.mpr ⟨r, hr, rfl⟩)
      simp [List.filter_cons, hq, ht]
    · have hk2 : k ∈ t.map Prod.fst := by
        rcases List.mem_map.mp hk with ⟨r, hr, hre⟩
        rcases List.mem_cons.mp hr with rfl | hr2
        · exact absurd hre hq
        · exact List.mem_map.mpr ⟨r, hr2, hre⟩
      simpa [List.filter_cons, hq] using filter_key_map_fst t hnd'.2 k hk2


/-- **C8**: with more than one current season id, all current seasons'
tournaments are merged into the current season id with the most
tournaments (ties broken in favour of the first-seen id) and every other
current season id is removed; non-current seasons are untouched. -/
theorem merge_current_seasons_spec (l : List (String × SeasonRaw))
    (hkeys : (l.map Prod.fst).Nodup)
    (hcur : 1 < (current_sids l).length) :
    (∃ l1 l2, current_sids l = l1 ++ primary_sid l :: l2 ∧
      (∀ s ∈ l1, tcount l s < tcount l (primary_sid l)) ∧
      (∀ s ∈ l2, tcount l s ≤ tcount l (primary_sid l))) ∧
    (((merge_current_seasons l).filter fun q => q.2.has_in_progress).map
        Prod.fst = [primary_sid l]) ∧
    List.Perm
      (season_tournaments (merge_current_seasons l) (primary_sid l))
      ((l.filter fun q => q.2.has_in_progress).flatMap fun q =>
        q.2.tournaments) ∧
    (∀ q ∈ l, q.2.has_in_progress = false → q ∈ merge_current_seasons l) ∧
    (∀ q ∈ l, q.2.has_in_progress = true → q.1 ≠ primary_sid l →
      q.1 ∉ (merge_current_seasons l).map Prod.fst) := by
  have hne : ¬ (current_sids l).length ≤ 1 := by omega
  have hmerge : merge_current_seasons l =
      l.filterMap
        (merge_step (current_sids l) (primary_sid l)
          (((current_sids l).filter fun s => s ≠ primary_sid l).flatMap
            (season_tournaments l))) := by
    unfold merge_current_seasons
    rw [if_neg hne]
  obtain ⟨c, cs', hcs⟩ : ∃ c cs', current_sids l = c :: cs' := by
    cases hc : current_sids l with
    | nil =>
      rw [hc] at hcur
      simp at hcur
    | cons c cs' => exact ⟨c, cs', rfl⟩
  have hprim : primary_sid l = first_max (tcount l) c cs' := by
    unfold primary_sid
    rw [hcs]
  obtain ⟨l1, l2, hsplit, hlt, hle⟩ := first_max_split (tcount l) cs' c
  have h1 : current_sids l = l1 ++ primary_sid l :: l2 := by
    rw [hcs, hprim]
    exact hsplit
  have hlt2 : ∀ s ∈ l1, tcount l s < tcount l (primary_sid l) := by
    rw [hprim]
    exact hlt
  have hle2 : ∀ s ∈ l2, tcount l s ≤ tcount l (primary_sid l) := by
    rw [hprim]
    exact hle
  have hp_mem : primary_sid l ∈ current_sids l := by
    rw [h1]
    exact List.mem_append_right _ (List.mem_cons_self _ _)
  have hco : ∀ q ∈ l, (q.1 ∈ current_sids l ↔ q.2.has_in_progress = true) :=
    fun q hq => current_sid_coherence l hkeys q hq
  obtain ⟨d, hd, hdc⟩ := (mem_current_sids l (primary_sid l)).mp hp_mem
  have hlook : lookupA l (primary_sid l) = some d :=
    lookupA_eq_some_of_mem l (primary_sid l) d hd hkeys
  have hp_key : primary_sid l ∈ l.map Prod.fst :=
    List.mem_map.mpr ⟨(primary_sid l, d), hd, rfl⟩
  refine ⟨⟨l1, l2, h1, hlt2, hle2⟩, ?_, ?_, ?_, ?_⟩
  · rw [hmerge, filter_current_filterMap _ _ _ hp_mem l hco]
    exact filter_key_map_fst l hkeys (primary_sid l) hp_key
  · -- the primary's tournaments after the merge
    rw [hmerge]
    unfold season_tournaments
    rw [lookupA_filterMap_merge, hlook]
    simp only [Option.map_some', Option.getD_some]
    -- the extra tournaments: current ids other than the primary, in order
    have hnd_cs : (l1 ++ primary_sid l :: l2).Nodup := by
      rw [← h1]
      exact current_sids_nodup l hkeys
    have hPl1 : primary_sid l ∉ l1 := by
      intro hin
      exact (List.disjoint_of_nodup_append hnd_cs) hin
        (List.mem_cons_self _ _)
    have hPl2 : primary_sid l ∉ l2 :=
      (List.nodup_cons.mp (List.Nodup.of_append_right hnd_cs)).1
    have hfilter : ((current_sids l).filter fun s => s ≠ primary_sid l) =
        l1 ++ l2 := by
      rw [h1, List.filter_append, List.filter_cons]
      have hf1 : l1.filter (fun s => decide (s ≠ primary_sid l)) = l1 := by
        rw [List.filter_eq_self]
        intro a ha
        simp only [decide_eq_true_eq]
        intro he
        exact hPl1 (he ▸ ha)
      have hf2 : l2.filter (fun s => decide (s ≠ primary_sid l)) = l2 := by
        rw [List.filter_eq_self]
        intro a ha
        simp only [decide_eq_true_eq]
        intro he
        exact hPl2 (he ▸ ha)
      simp only [ne_eq, decide_not] at hf1 hf2
      simp [hf1, hf2]
    rw [hfilter, List.flatMap_append]
    -- the right-hand side: all current seasons' tournaments in order
    have hrhs : (l.filter fun q => q.2.has_in_progress).flatMap
        (fun q => q.2.tournaments) =
        (l1.flatMap (season_tournaments l)) ++
          (d.tournaments ++ l2.flatMap (season_tournaments l)) := by
      rw [← flatMap_tournaments l hkeys (l.filter fun q => q.2.has_in_progress)
        (fun q hq => (List.mem_filter.mp hq).1)]
      have : (List.filter (fun q => q.2.has_in_progress) l).map Prod.fst =
          current_sids l := rfl
      rw [this, h1, List.flatMap_append, List.flatMap_cons]
      have htp : season_tournaments l (primary_sid l) = d.tournaments := by
        unfold season_tournaments
        rw [hlook]
        rfl
      rw [htp]
    rw [hrhs]
    have hperm : List.Perm
        ((d.tournaments ++ l1.flatMap (season_tournaments l)) ++
          l2.flatMap (season_tournaments l))
        ((l1.flatMap (season_tournaments l) ++ d.tournaments) ++
          l2.flatMap (season_tournaments l)) :=
      List.Perm.append_right _ List.perm_append_comm
    rw [List.append_assoc, List.append_assoc] at hperm
    exact hperm
  · intro q hq hqcur
    have hq_not_cs : q.1 ∉ current_sids l := by
      intro hin
      rw [(hco q hq).mp hin] at hqcur
      cases hqcur
    have hq_ne_p : q.1 ≠ primary_sid l := fun he => hq_not_cs (he ▸ hp_mem)
    rw [hmerge]
    refine List.mem_filterMap.mpr ⟨q, hq, ?_⟩
    unfold merge_step
    rw [if_neg (fun hc => hq_not_cs hc.1), if_neg hq_ne_p]
  · intro q hq hqcur hqp hmem_map
    obtain ⟨r, hr, hre⟩ := List.mem_map.mp hmem_map
    rw [hmerge] at hr
    obtain ⟨q2, hq2, hstep⟩ := List.mem_filterMap.mp hr
    obtain ⟨hkey, hcases⟩ := merge_step_some_key _ _ _ _ _ hstep
    have hq2key : q2.1 = q.1 := by rw [← hkey, hre]
    have hq_cs : q.1 ∈ current_sids l := (hco q hq).mpr hqcur
    rcases hcases with hnot | hp2
    · exact hnot (hq2key ▸ hq_cs)
    · exact hqp (hq2key ▸ hp2)


/-- Concrete seasons dict for the C8 witness: two current ids (`A` with
one tournament, `C` with two) and one finished id. -/
def sample_seasons : List (String × SeasonRaw) :=
  [("A", ⟨[sample_t1], true⟩), ("B", ⟨[], false⟩),
   ("C", ⟨[sample_t2, sample_t3], true⟩)]

theorem merge_current_seasons_spec_witness :
    ((sample_seasons.map Prod.fst).Nodup) ∧
    (1 < (current_sids sample_seasons).length) ∧
    ((∃ l1 l2, current_sids sample_seasons =
        l1 ++ primary_sid sample_seasons :: l2 ∧
      (∀ s ∈ l1, tcount sample_seasons s <
        tcount sample_seasons (primary_sid sample_seasons)) ∧
      (∀ s ∈ l2, tcount sample_seasons s ≤
        tcount sample_seasons (primary_sid sample_seasons))) ∧
    (((merge_current_seasons sample_seasons).filter
        fun q => q.2.has_in_progress).map Prod.fst =
      [primary_sid sample_seasons]) ∧
    List.Perm
      (season_tournaments (merge_current_seasons sample_seasons)
        (primary_sid sample_seasons))
      ((sample_seasons.filter fun q => q.2.has_in_progress).flatMap fun q =>
        q.2.tournaments) ∧
    (∀ q ∈ sample_seasons, q.2.has_in_progress = false →
      q ∈ merge_current_seasons sample_seasons) ∧
    (∀ q ∈ sample_seasons, q.2.has_in_progress = true →
      q.1 ≠ primary_sid sample_seasons →
      q.1 ∉ (merge_current_seasons sample_seasons).map Prod.fst)) :=
  ⟨by decide, by decide,
    merge_current_seasons_spec sample_seasons (by decide) (by decide)⟩


/-! ### Label-collision season dedup (build.py 1613-1640)

`all_season_data` is an insertion-ordered dict `season_id -> season
record`; the loop walks its items, tracking `seen_labels` (label -> the
surviving sid for that label) and `duplicates_to_remove`, merging a
colliding entry into whichever of the two has more categories; the listed
duplicates are deleted afterwards.  Category records are abstract to this
loop and are modelled by an abstract id (`ℕ`). -/

/-- The parts of a season record that the dedup loop reads or writes. -/
structure SeasonData where
  label : String
  status : String
  categories_data : List ℕ
deriving DecidableEq

/-- Python dict value update `d[k] = v` for an existing key of an
association list (keys unchanged). -/
def updateA {β : Type} (l : List (String × β)) (k : String) (v : β) :
    List (String × β) :=
  l.map fun q => if q.1 = k then (q.1, v) else q

/-- Python dict assignment (insert-or-update). -/
def setA {β : Type} (l : List (String × β)) (k : String) (v : β) :
    List (String × β) :=
  if (lookupA l k).isSome then updateA l k v else l ++ [(k, v)]

/-- The merge of a colliding season into the bigger one: categories
concatenated, status promoted to `current` if the absorbed side was
current, label (and the rest) kept from the survivor. -/
def merge_vals (big small : SeasonData) : SeasonData :=
  { big with
    categories_data := big.categories_data ++ small.categories_data,
    status := if small.status = "current" then "current" else big.status }

/-- The loop state: the dict values, `seen_labels` and
`duplicates_to_remove`. -/
structure DedupState where
  vals : List (String × SeasonData)
  seen : List (String × String)
  to_remove : List String
deriving DecidableEq

/-- One iteration of the dedup loop for the entry with key `sid`
(`label = sdata["label"]`, then the `seen_labels` check and the two merge
branches; the absent-key guards are unreachable when `sid` is a live key). -/
def dedup_step (st : DedupState) (sid : String) : DedupState :=
  (lookupA st.vals sid).elim st fun v =>
    (lookupA st.seen v.label).elim
      { st with seen := setA st.seen v.label sid }
      fun prev_sid =>
        (lookupA st.vals prev_sid).elim st fun prev =>
          if prev.categories_data.length < v.categories_data.length then
            { vals := updateA st.vals sid (merge_vals v prev),
              seen := setA st.seen v.label sid,
              to_remove := st.to_remove ++ [prev_sid] }
          else
            { vals := updateA st.vals prev_sid (merge_vals prev v),
              seen := st.seen,
              to_remove := st.to_remove ++ [sid] }

/-- The whole loop, run over the dict keys in insertion order. -/
def dedup_run (l : List (String × SeasonData)) : DedupState :=
  (l.map Prod.fst).foldl dedup_step ⟨l, [], []⟩

/-- The dedup phase of `main`: run the loop, then delete the season ids
listed in `duplicates_to_remove`. -/
def dedup_seasons (l : List (String × SeasonData)) :
    List (String × SeasonData) :=
  (dedup_run l).vals.filter fun q => decide (q.1 ∉ (dedup_run l).to_remove)

theorem lookupA_mem {β : Type} :
    ∀ (l : List (String × β)) (k : String) (v : β),
      lookupA l k = some v → (k, v) ∈ l
  | [], _, _, h => by simp [lookupA] at h
  | q :: t, k, v, h => by
    by_cases hq : q.1 = k
    · unfold lookupA at h
      rw [if_pos hq] at h
      obtain rfl := Option.some.inj h
      subst hq
      exact List.mem_cons_self _ _
    · unfold lookupA at h
      rw [if_neg hq] at h
      exact List.mem_cons_of_mem _ (lookupA_mem t k v h)

theorem lookupA_eq_none_iff {β : Type} :
    ∀ (l : List (String × β)) (k : String),
      lookupA l k = none ↔ k ∉ l.map Prod.fst
  | [], k => by simp [lookupA]
  | q :: t, k => by
    unfold lookupA
    by_cases hq : q.1 = k
    · rw [if_pos hq]
      simp [hq]
    · rw [if_neg hq]
      rw [lookupA_eq_none_iff t k]
      simp only [List.map_cons, List.mem_cons]
      constructor
      · intro h hc
        rcases hc with hc | hc
        · exact hq hc.symm
        · exact h hc
      · intro h hc
        exact h (Or.inr hc)

theorem map_fst_updateA {β : Type} (l : List (String × β)) (k : String)
    (v : β) : (updateA l k v).map Prod.fst = l.map Prod.fst := by
  induction l with
  | nil => rfl
  | cons q t ih =>
    simp only [updateA, List.map_cons] at ih ⊢
    by_cases hq : q.1 = k <;> simp [hq, ih]

theorem lookupA_cons {β : Type} (p : String × β) (t : List (String × β))
    (k : String) :
    lookupA (p :: t) k = if p.1 = k then some p.2 else lookupA t k := rfl

theorem updateA_cons {β : Type} (q : String × β) (t : List (String × β))
    (k : String) (v : β) :
    updateA (q :: t) k v =
      (if q.1 = k then (q.1, v) else q) :: updateA t k v := rfl

theorem lookupA_updateA {β : Type} :
    ∀ (l : List (String × β)) (k : String) (v : β) (k' : String),
      lookupA (updateA l k v) k' =
        if k' = k then (lookupA l k).map fun _ => v else lookupA l k'
  | [], k, v, k' => by by_cases h : k' = k <;> simp [updateA, lookupA, h]
  | q :: t, k, v, k' => by
    have ih := lookupA_updateA t k v k'
    rw [updateA_cons]
    by_cases hq : q.1 = k
    · rw [if_pos hq]
      simp only [lookupA_cons]
      rw [if_pos hq]
      by_cases hk : k' = k
      · have hq2 : q.1 = k' := by rw [hq, hk]
        rw [if_pos hq2, if_pos hk]
        rfl
      · have hq2 : ¬ q.1 = k' := fun he => hk (he ▸ hq)
        rw [if_neg hq2, if_neg hk, if_neg hq2, ih, if_neg hk]
    · rw [if_neg hq]
      simp only [lookupA_cons]
      rw [if_neg hq]
      by_cases hq2 : q.1 = k'
      · have hk : ¬ k' = k := fun he => hq (hq2.trans he)
        rw [if_pos hq2, if_neg hk, if_pos hq2]
      · rw [if_neg hq2, if_neg hq2]
        exact ih

theorem mem_updateA {β : Type} {l : List (String × β)} {k : String} {v : β}
    {e : String × β} (he : e ∈ updateA l k v) :
    ∃ q ∈ l, e = if q.1 = k then (q.1, v) else q := by
  obtain ⟨q, hq, hqe⟩ := List.mem_map.mp he
  exact ⟨q, hq, hqe.symm⟩

theorem lookupA_append_single {β : Type} :
    ∀ (l : List (String × β)) (k : String) (v : β) (k' : String),
      lookupA (l ++ [(k, v)]) k' =
        match lookupA l k' with
        | some w => some w
        | none => if k' = k then some v else none
  | [], k, v, k' => by
    by_cases h : k = k'
    · simp [lookupA, h]
    · have h2 : ¬ k' = k := fun he => h he.symm
      simp [lookupA, h, h2]
  | q :: t, k, v, k' => by
    have ih := lookupA_append_single t k v k'
    by_cases hq : q.1 = k' <;> simp [lookupA, hq, ih]


theorem merge_vals_label (a b : SeasonData) : (merge_vals a b).label = a.label :=
  rfl

theorem not_mem_append_singleton {x y : String} {l : List String} :
    x ∉ l ++ [y] ↔ x ∉ l ∧ x ≠ y := by
  simp [List.mem_append, not_or]

theorem dedup_step_none_label (st : DedupState) (k : String) (v : SeasonData)
    (hv : lookupA st.vals k = some v)
    (hseen : lookupA st.seen v.label = none) :
    dedup_step st k = { st with seen := setA st.seen v.label k } := by
  unfold dedup_step
  rw [hv]
  simp only [Option.elim_some]
  rw [hseen]
  rfl

theorem dedup_step_bigger_current (st : DedupState) (k : String)
    (v pv : SeasonData) (prev_sid : String)
    (hv : lookupA st.vals k = some v)
    (hseen : lookupA st.seen v.label = some prev_sid)
    (hpv : lookupA st.vals prev_sid = some pv)
    (hlen : pv.categories_data.length < v.categories_data.length) :
    dedup_step st k =
      { vals := updateA st.vals k (merge_vals v pv),
        seen := setA st.seen v.label k,
        to_remove := st.to_remove ++ [prev_sid] } := by
  unfold dedup_step
  rw [hv]
  simp only [Option.elim_some]
  rw [hseen]
  simp only [Option.elim_some]
  rw [hpv]
  simp only [Option.elim_some]
  rw [if_pos hlen]

theorem dedup_step_bigger_prev (st : DedupState) (k : String)
    (v pv : SeasonData) (prev_sid : String)
    (hv : lookupA st.vals k = some v)
    (hseen : lookupA st.seen v.label = some prev_sid)
    (hpv : lookupA st.vals prev_sid = some pv)
    (hlen : ¬ pv.categories_data.length < v.categories_data.length) :
    dedup_step st k =
      { vals := updateA st.vals prev_sid (merge_vals pv v),
        seen := st.seen,
        to_remove := st.to_remove ++ [k] } := by
  unfold dedup_step
  rw [hv]
  simp only [Option.elim_some]
  rw [hseen]
  simp only [Option.elim_some]
  rw [hpv]
  simp only [Option.elim_some]
  rw [if_neg hlen]

/-- Loop invariant of the dedup fold, over the remaining keys `ks`:
the dict keys and the seen labels stay duplicate-free, every seen entry
points at a surviving processed key whose value carries that label, every
surviving processed value is registered under its label, and the
remaining keys are live, unprocessed and unremoved. -/
def DedupInv (st : DedupState) (ks : List String) : Prop :=
  (st.vals.map Prod.fst).Nodup ∧
  (st.seen.map Prod.fst).Nodup ∧
  (∀ e ∈ st.seen, (∃ w, lookupA st.vals e.2 = some w ∧ w.label = e.1) ∧
    e.2 ∉ st.to_remove ∧ e.2 ∉ ks) ∧
  (∀ q ∈ st.vals, q.1 ∉ st.to_remove → q.1 ∉ ks →
    lookupA st.seen q.2.label = some q.1) ∧
  ks.Nodup ∧
  (∀ k ∈ ks, (∃ v, lookupA st.vals k = some v) ∧ k ∉ st.to_remove)

theorem dedup_step_inv (st : DedupState) (k : String) (ks : List String)
    (hinv : DedupInv st (k :: ks)) : DedupInv (dedup_step st k) ks := by
  obtain ⟨h1, h2, h3, h4, h5, h6⟩ := hinv
  obtain ⟨⟨v, hv⟩, hkrem⟩ := h6 k (List.mem_cons_self k ks)
  have h5t : ks.Nodup := (List.nodup_cons.mp h5).2
  have hkks : k ∉ ks := (List.nodup_cons.mp h5).1
  cases hseen : lookupA st.seen v.label with
  | none =>
    rw [dedup_step_none_label st k v hv hseen]
    have hset : setA st.seen v.label k = st.seen ++ [(v.label, k)] := by
      unfold setA
      rw [hseen]
      rfl
    have hnotin : v.label ∉ st.seen.map Prod.fst :=
      (lookupA_eq_none_iff _ _).mp hseen
    refine ⟨h1, ?_, ?_, ?_, h5t, ?_⟩
    · show ((setA st.seen v.label k).map Prod.fst).Nodup
      rw [hset, List.map_append]
      refine List.Nodup.append h2 (List.nodup_singleton _) ?_
      intro x hx hx2
      simp only [List.map_cons, List.map_nil, List.mem_singleton] at hx2
      exact hnotin (hx2 ▸ hx)
    · intro e he
      rw [hset] at he
      rcases List.mem_append.mp he with he | he
      · obtain ⟨⟨w, hw, hwl⟩, herem, heks⟩ := h3 e he
        exact ⟨⟨w, hw, hwl⟩, herem,
          fun hm => heks (List.mem_cons_of_mem _ hm)⟩
      · rw [List.mem_singleton] at he
        subst he
        exact ⟨⟨v, hv, rfl⟩, hkrem, hkks⟩
    · intro q hq hqrem hqks
      show lookupA (setA st.seen v.label k) q.2.label = some q.1
      rw [hset, lookupA_append_single]
      by_cases hqk : q.1 = k
      · have hlq : lookupA st.vals q.1 = some q.2 :=
          lookupA_eq_some_of_mem st.vals q.1 q.2 hq h1
        rw [hqk] at hlq
        rw [hv] at hlq
        obtain rfl := Option.some.inj hlq
        rw [hseen]
        simp [hqk]
      · have hold := h4 q hq hqrem (by
          intro hm
          rcases List.mem_cons.mp hm with hm | hm
          · exact hqk hm
          · exact hqks hm)
        rw [hold]
    · intro k2 hk2
      obtain ⟨⟨w, hw⟩, hk2rem⟩ := h6 k2 (List.mem_cons_of_mem _ hk2)
      exact ⟨⟨w, hw⟩, hk2rem⟩
  | some prev_sid =>
    obtain ⟨⟨pv, hpv, hpvlab⟩, hprem, hpks⟩ :=
      h3 (v.label, prev_sid) (lookupA_mem _ _ _ hseen)
    have hpk : prev_sid ≠ k := fun he =>
      (he ▸ hpks) (List.mem_cons_self k ks)
    have hpks2 : prev_sid ∉ ks := fun hm =>
      hpks (List.mem_cons_of_mem _ hm)
    have hsetA : setA st.seen v.label k = updateA st.seen v.label k := by
      unfold setA
      rw [hseen]
      rfl
    by_cases hlen : pv.categories_data.length < v.categories_data.length
    · rw [dedup_step_bigger_current st k v pv prev_sid hv hseen hpv hlen]
      refine ⟨?_, ?_, ?_, ?_, h5t, ?_⟩
      · show ((updateA st.vals k (merge_vals v pv)).map Prod.fst).Nodup
        rw [map_fst_updateA]
        exact h1
      · show ((setA st.seen v.label k).map Prod.fst).Nodup
        rw [hsetA, map_fst_updateA]
        exact h2
      · intro e he
        rw [hsetA] at he
        obtain ⟨e0, he0, hee⟩ := mem_updateA he
        by_cases he1 : e0.1 = v.label
        · rw [if_pos he1] at hee
          subst hee
          refine ⟨⟨merge_vals v pv, ?_, ?_⟩, ?_, hkks⟩
          · show lookupA (updateA st.vals k (merge_vals v pv)) k = _
            rw [lookupA_updateA, if_pos rfl, hv]
            rfl
          · rw [merge_vals_label]
            exact he1.symm
          · show k ∉ st.to_remove ++ [prev_sid]
            rw [not_mem_append_singleton]
            exact ⟨hkrem, fun he2 => hpk he2.symm⟩
        · rw [if_neg he1] at hee
          subst hee
          obtain ⟨⟨w, hw, hwl⟩, herem, heks⟩ := h3 e he0
          have he2k : e.2 ≠ k := by
            intro he2
            rw [he2, hv] at hw
            obtain rfl := Option.some.inj hw
            exact he1 hwl.symm
          have he2p : e.2 ≠ prev_sid := by
            intro he2
            rw [he2, hpv] at hw
            obtain rfl := Option.some.inj hw
            exact he1 (hpvlab ▸ hwl).symm
          refine ⟨⟨w, ?_, hwl⟩, ?_, ?_⟩
          · show lookupA (updateA st.vals k (merge_vals v pv)) e.2 = some w
            rw [lookupA_updateA, if_neg he2k]
            exact hw
          · show e.2 ∉ st.to_remove ++ [prev_sid]
            rw [not_mem_append_singleton]
            exact ⟨herem, he2p⟩
          · exact fun hm => heks (List.mem_cons_of_mem _ hm)
      · intro q hq hqrem hqks
        obtain ⟨q0, hq0, hqe⟩ := mem_updateA hq
        rw [not_mem_append_singleton] at hqrem
        by_cases hq1 : q0.1 = k
        · rw [if_pos hq1] at hqe
          subst hqe
          show lookupA (setA st.seen v.label k) (merge_vals v pv).label =
            some q0.1
          rw [hsetA, merge_vals_label, lookupA_updateA, if_pos rfl, hseen,
            hq1]
          rfl
        · rw [if_neg hq1] at hqe
          subst hqe
          have hq0rem : q.1 ∉ st.to_remove := hqrem.1
          have hq0p : q.1 ≠ prev_sid := hqrem.2
          have hold := h4 q hq0 hq0rem (by
            intro hm
            rcases List.mem_cons.mp hm with hm | hm
            · exact hq1 hm
            · exact hqks hm)
          have hlab : q.2.label ≠ v.label := by
            intro he
            rw [he, hseen] at hold
            exact hq0p (Option.some.inj hold).symm
          show lookupA (setA st.seen v.label k) q.2.label = some q.1
          rw [hsetA, lookupA_updateA, if_neg hlab]
          exact hold
      · intro k2 hk2
        obtain ⟨⟨w, hw⟩, hk2rem⟩ := h6 k2 (List.mem_cons_of_mem _ hk2)
        have hk2k : k2 ≠ k := fun he => hkks (he ▸ hk2)
        refine ⟨⟨w, ?_⟩, ?_⟩
        · show lookupA (updateA st.vals k (merge_vals v pv)) k2 = some w
          rw [lookupA_updateA, if_neg hk2k]
          exact hw
        · show k2 ∉ st.to_remove ++ [prev_sid]
          rw [not_mem_append_singleton]
          exact ⟨hk2rem, fun he => hpks2 (he ▸ hk2)⟩
    · rw [dedup_step_bigger_prev st k v pv prev_sid hv hseen hpv hlen]
      refine ⟨?_, h2, ?_, ?_, h5t, ?_⟩
      · show ((updateA st.vals prev_sid (merge_vals pv v)).map Prod.fst).Nodup
        rw [map_fst_updateA]
        exact h1
      · intro e he
        obtain ⟨⟨w, hw, hwl⟩, herem, heks⟩ := h3 e he
        have heks2 : e.2 ∉ ks := fun hm => heks (List.mem_cons_of_mem _ hm)
        have hek : e.2 ≠ k := fun he2 => heks (he2 ▸ List.mem_cons_self k ks)
        by_cases hep : e.2 = prev_sid
        · refine ⟨⟨merge_vals pv v, ?_, ?_⟩, ?_, heks2⟩
          · show lookupA (updateA st.vals prev_sid (merge_vals pv v)) e.2 =
              some (merge_vals pv v)
            rw [lookupA_updateA, if_pos hep, hpv]
            rfl
          · rw [merge_vals_label]
            rw [hep, hpv] at hw
            obtain rfl := Option.some.inj hw
            exact hwl
          · show e.2 ∉ st.to_remove ++ [k]
            rw [not_mem_append_singleton]
            exact ⟨herem, hek⟩
        · refine ⟨⟨w, ?_, hwl⟩, ?_, heks2⟩
          · show lookupA (updateA st.vals prev_sid (merge_vals pv v)) e.2 =
              some w
            rw [lookupA_updateA, if_neg hep]
            exact hw
          · show e.2 ∉ st.to_remove ++ [k]
            rw [not_mem_append_singleton]
            exact ⟨herem, hek⟩
      · intro q hq hqrem hqks
        obtain ⟨q0, hq0, hqe⟩ := mem_updateA hq
        rw [not_mem_append_singleton] at hqrem
        by_cases hq1 : q0.1 = prev_sid
        · rw [if_pos hq1] at hqe
          subst hqe
          show lookupA st.seen (merge_vals pv v).label = some q0.1
          rw [merge_vals_label, hpvlab, hseen, hq1]
        · rw [if_neg hq1] at hqe
          subst hqe
          exact h4 q hq0 hqrem.1 (by
            intro hm
            rcases List.mem_cons.mp hm with hm | hm
            · exact hqrem.2 hm
            · exact hqks hm)
      · intro k2 hk2
        obtain ⟨⟨w, hw⟩, hk2rem⟩ := h6 k2 (List.mem_cons_of_mem _ hk2)
        have hk2p : k2 ≠ prev_sid := fun he => hpks2 (he ▸ hk2)
        refine ⟨⟨w, ?_⟩, ?_⟩
        · show lookupA (updateA st.vals prev_sid (merge_vals pv v)) k2 = some w
          rw [lookupA_updateA, if_neg hk2p]
          exact hw
        · show k2 ∉ st.to_remove ++ [k]
          rw [not_mem_append_singleton]
          exact ⟨hk2rem, fun he => hkks (he ▸ hk2)⟩


theorem lookupA_append_single_of_none {β : Type} (l : List (String × β))
    (k : String) (v : β) (k' : String) (h : lookupA l k' = none) :
    lookupA (l ++ [(k, v)]) k' = if k' = k then some v else none := by
  rw [lookupA_append_single, h]

theorem dedup_fold_inv :
    ∀ (ks : List String) (st : DedupState),
      DedupInv st ks → DedupInv (ks.foldl dedup_step st) []
  | [], _, h => h
  | k :: ks, st, h =>
    dedup_fold_inv ks (dedup_step st k) (dedup_step_inv st k ks h)

theorem dedup_run_inv (l : List (String × SeasonData))
    (hkeys : (l.map Prod.fst).Nodup) : DedupInv (dedup_run l) [] := by
  unfold dedup_run
  refine dedup_fold_inv (l.map Prod.fst) ⟨l, [], []⟩
    ⟨hkeys, List.nodup_nil, ?_, ?_, hkeys, ?_⟩
  · intro e he
    cases he
  · intro q hq _ hks
    exact absurd (List.mem_map.mpr ⟨q, hq, rfl⟩) hks
  · intro k hk
    obtain ⟨q, hq, rfl⟩ := List.mem_map.mp hk
    exact ⟨⟨q.2, lookupA_eq_some_of_mem l q.1 q.2 hq hkeys⟩,
      List.not_mem_nil _⟩

theorem dedup_seasons_keys_nodup (l : List (String × SeasonData))
    (hkeys : (l.map Prod.fst).Nodup) :
    ((dedup_seasons l).map Prod.fst).Nodup := by
  have h1 := (dedup_run_inv l hkeys).1
  unfold dedup_seasons
  exact h1.sublist (List.Sublist.map _ (List.filter_sublist _))

theorem dedup_seasons_labels_nodup (l : List (String × SeasonData))
    (hkeys : (l.map Prod.fst).Nodup) :
    ((dedup_seasons l).map fun q => q.2.label).Nodup := by
  obtain ⟨h1, _, _, h4, _, _⟩ := dedup_run_inv l hkeys
  have hkND := dedup_seasons_keys_nodup l hkeys
  refine List.pairwise_map.mpr ?_
  have hkP : (dedup_seasons l).Pairwise fun a b => a.1 ≠ b.1 :=
    List.pairwise_map.mp hkND
  refine List.Pairwise.imp_of_mem ?_ hkP
  intro a b ha hb hne hlab
  unfold dedup_seasons at ha hb
  have ha2 := List.mem_filter.mp ha
  have hb2 := List.mem_filter.mp hb
  have ha3 : a.1 ∉ (dedup_run l).to_remove := by simpa using ha2.2
  have hb3 : b.1 ∉ (dedup_run l).to_remove := by simpa using hb2.2
  have hA := h4 a ha2.1 ha3 (List.not_mem_nil _)
  have hB := h4 b hb2.1 hb3 (List.not_mem_nil _)
  rw [hlab] at hA
  rw [hA] at hB
  exact hne (Option.some.inj hB)

theorem dedup_fold_no_collision :
    ∀ (ks : List String) (st : DedupState),
      (∀ k ∈ ks, ∃ v, lookupA st.vals k = some v ∧
        lookupA st.seen v.label = none) →
      ks.Pairwise (fun k k2 => ∀ v v2, lookupA st.vals k = some v →
        lookupA st.vals k2 = some v2 → v.label ≠ v2.label) →
      (ks.foldl dedup_step st).vals = st.vals ∧
      (ks.foldl dedup_step st).to_remove = st.to_remove
  | [], _, _, _ => ⟨rfl, rfl⟩
  | k :: ks, st, hpre, hpar => by
    obtain ⟨v, hv, hvseen⟩ := hpre k (List.mem_cons_self k ks)
    have hset : setA st.seen v.label k = st.seen ++ [(v.label, k)] := by
      unfold setA
      rw [hvseen]
      rfl
    obtain ⟨hpar_head, hpar_tail⟩ := List.pairwise_cons.mp hpar
    have hpre2 : ∀ k2 ∈ ks, ∃ v2,
        lookupA ({ st with seen := setA st.seen v.label k } :
          DedupState).vals k2 = some v2 ∧
        lookupA ({ st with seen := setA st.seen v.label k } :
          DedupState).seen v2.label = none := by
      intro k2 hk2
      obtain ⟨v2, hv2, hv2seen⟩ := hpre k2 (List.mem_cons_of_mem _ hk2)
      refine ⟨v2, hv2, ?_⟩
      show lookupA (setA st.seen v.label k) v2.label = none
      have hne : v2.label ≠ v.label := fun he =>
        hpar_head k2 hk2 v v2 hv hv2 he.symm
      rw [hset, lookupA_append_single_of_none _ _ _ _ hv2seen, if_neg hne]
    rw [List.foldl_cons, dedup_step_none_label st k v hv hvseen]
    exact dedup_fold_no_collision ks _ hpre2 hpar_tail

theorem dedup_seasons_of_distinct_labels (l : List (String × SeasonData))
    (hkeys : (l.map Prod.fst).Nodup)
    (hlabels : (l.map fun q => q.2.label).Nodup) : dedup_seasons l = l := by
  have hpre : ∀ k ∈ l.map Prod.fst, ∃ v,
      lookupA (⟨l, [], []⟩ : DedupState).vals k = some v ∧
      lookupA (⟨l, [], []⟩ : DedupState).seen v.label = none := by
    intro k hk
    obtain ⟨q, hq, rfl⟩ := List.mem_map.mp hk
    exact ⟨q.2, lookupA_eq_some_of_mem l q.1 q.2 hq hkeys, rfl⟩
  have hpar : (l.map Prod.fst).Pairwise fun k k2 => ∀ v v2,
      lookupA (⟨l, [], []⟩ : DedupState).vals k = some v →
      lookupA (⟨l, [], []⟩ : DedupState).vals k2 = some v2 →
      v.label ≠ v2.label := by
    refine List.pairwise_map.mpr ?_
    have hlab2 : l.Pairwise fun a b => a.2.label ≠ b.2.label :=
      List.pairwise_map.mp hlabels
    refine List.Pairwise.imp_of_mem ?_ hlab2
    intro a b ha hb hne v v2 hv hv2
    have hva : lookupA l a.1 = some a.2 :=
      lookupA_eq_some_of_mem l a.1 a.2 ha hkeys
    have hvb : lookupA l b.1 = some b.2 :=
      lookupA_eq_some_of_mem l b.1 b.2 hb hkeys
    have hv' : lookupA l a.1 = some v := hv
    have hv2' : lookupA l b.1 = some v2 := hv2
    rw [hva] at hv'
    rw [hvb] at hv2'
    obtain rfl := Option.some.inj hv'
    obtain rfl := Option.some.inj hv2'
    exact hne
  have h := dedup_fold_no_collision (l.map Prod.fst) ⟨l, [], []⟩ hpre hpar
  unfold dedup_seasons dedup_run
  rw [h.1, h.2, List.filter_eq_self]
  intro a _
  simp

theorem dedup_seasons_idem (l : List (String × SeasonData))
    (hkeys : (l.map Prod.fst).Nodup) :
    dedup_seasons (dedup_seasons l) = dedup_seasons l :=
  dedup_seasons_of_distinct_labels (dedup_seasons l)
    (dedup_seasons_keys_nodup l hkeys) (dedup_seasons_labels_nodup l hkeys)


theorem dedup_two_merge (s1 s2 : String) (d1 d2 : SeasonData) (hs : s1 ≠ s2)
    (hlab : d1.label = d2.label) :
    (d1.categories_data.length < d2.categories_data.length →
      dedup_seasons [(s1, d1), (s2, d2)] =
        [(s2, { label := d2.label,
                status := if d1.status = "current" then "current"
                  else d2.status,
                categories_data := d2.categories_data ++
                  d1.categories_data })]) ∧
    (¬ d1.categories_data.length < d2.categories_data.length →
      dedup_seasons [(s1, d1), (s2, d2)] =
        [(s1, { label := d1.label,
                status := if d2.status = "current" then "current"
                  else d1.status,
                categories_data := d1.categories_data ++
                  d2.categories_data })]) := by
  have hs2 : s2 ≠ s1 := fun he => hs he.symm
  constructor
  · intro hlen
    simp [dedup_seasons, dedup_run, dedup_step, lookupA, setA, updateA,
      merge_vals, hs, hs2, hlab, hlen]
  · intro hlen
    simp [dedup_seasons, dedup_run, dedup_step, lookupA, setA, updateA,
      merge_vals, hs, hs2, hlab, hlen]

/-- **C4**: the label-collision merge is idempotent — on a collection with
pairwise-distinct labels (such as its own output) it changes nothing — and
when two seasons share a label their category lists are concatenated, the
surviving status is `current` if either side was current, and the season
with fewer categories is discarded. -/
theorem dedup_seasons_spec :
    (∀ l : List (String × SeasonData), (l.map Prod.fst).Nodup →
      (l.map fun q => q.2.label).Nodup → dedup_seasons l = l) ∧
    (∀ l : List (String × SeasonData), (l.map Prod.fst).Nodup →
      dedup_seasons (dedup_seasons l) = dedup_seasons l) ∧
    (∀ (s1 s2 : String) (d1 d2 : SeasonData), s1 ≠ s2 →
      d1.label = d2.label →
      (d1.categories_data.length < d2.categories_data.length →
        dedup_seasons [(s1, d1), (s2, d2)] =
          [(s2, { label := d2.label,
                  status := if d1.status = "current" then "current"
                    else d2.status,
                  categories_data := d2.categories_data ++
                    d1.categories_data })]) ∧
      (¬ d1.categories_data.length < d2.categories_data.length →
        dedup_seasons [(s1, d1), (s2, d2)] =
          [(s1, { label := d1.label,
                  status := if d2.status = "current" then "current"
                    else d1.status,
                  categories_data := d1.categories_data ++
                    d2.categories_data })])) :=
  ⟨dedup_seasons_of_distinct_labels, dedup_seasons_idem, dedup_two_merge⟩

/-- Concrete season records for the C4 witness. -/
def sample_dedup_distinct : List (String × SeasonData) :=
  [("A", ⟨"2024-25", "finished", [1]⟩), ("B", ⟨"2025-26", "current", [2, 3]⟩)]

def sample_dedup_collide : List (String × SeasonData) :=
  [("A", ⟨"2024-25", "finished", [1]⟩), ("B", ⟨"2024-25", "current", [2, 3]⟩)]

theorem dedup_seasons_spec_witness :
    ((sample_dedup_distinct.map Prod.fst).Nodup) ∧
    ((sample_dedup_distinct.map fun q => q.2.label).Nodup) ∧
    (dedup_seasons sample_dedup_distinct = sample_dedup_distinct) ∧
    ((sample_dedup_collide.map Prod.fst).Nodup) ∧
    (dedup_seasons (dedup_seasons sample_dedup_collide) =
      dedup_seasons sample_dedup_collide) ∧
    (("A" : String) ≠ "B") ∧
    ((⟨"2024-25", "finished", [1]⟩ : SeasonData).label =
      (⟨"2024-25", "current", [2, 3]⟩ : SeasonData).label) ∧
    ((⟨"2024-25", "finished", [1]⟩ : SeasonData).categories_data.length <
      (⟨"2024-25", "current", [2, 3]⟩ : SeasonData).categories_data.length) ∧
    (dedup_seasons [("A", ⟨"2024-25", "finished", [1]⟩),
        ("B", ⟨"2024-25", "current", [2, 3]⟩)] =
      [("B", { label := "2024-25",
               status := if "finished" = "current" then "current"
                 else "current",
               categories_data := [2, 3] ++ [1] })]) :=
  ⟨by decide, by decide,
    dedup_seasons_spec.1 sample_dedup_distinct (by decide) (by decide),
    by decide,
    dedup_seasons_spec.2.1 sample_dedup_collide (by decide),
    by decide, rfl, by decide,
    (dedup_seasons_spec.2.2 "A" "B" ⟨"2024-25", "finished", [1]⟩
      ⟨"2024-25", "current", [2, 3]⟩ (by decide) rfl).1 (by decide)⟩

end WaterFollow
